import Mathlib

/-!
# Filtered systematic pattern collection generator

A shallow embedding of
`src/search/pdbs/pattern_collection_generator_filtered_systematic.cc`:
the PDB size computation, the usefulness score, the sequential pattern
generator and the budget-constrained selection loop, together with the
properties of the specification that concern them.

Conventions of the embedding.
* A C++ `int` is an `Int`; the one multiplication of the file whose overflow
  is at stake (`size *= domain_sizes[var]`) is wrapped to 32 bits, and the
  `int64_t` arithmetic on `collection_size` is wrapped to 64 bits.
* The size of an in-memory container (`pattern.size()`, `projections->size()`,
  the counter of table entries) is its exact length.
* A `double` is the rational it stands for, or `+infinity`; every sum and
  quotient of doubles is rounded to the nearest number with a significand of
  53 bits, ties to even, as IEEE 754 does. The exponent range is not modelled:
  the sums and quotients of tables of 32-bit integers stay far inside it.
* Code outside the file (the systematic enumerator, the timer, the projection
  and the cost-saturation helpers) is a parameter of the embedding.
-/

namespace pdbs

/-- A pattern is a `vector<int>` of variable ids. -/
abbrev Pattern := List Nat

/-- A pattern collection is a `vector<Pattern>`; the back of the vector is the
last element of the list. -/
abbrev PatternCollection := List Pattern

/-- The value of `numeric_limits<int>::max()`. -/
def INT_MAX : Int := 2147483647

/-- Reduction of a mathematical integer to the value a 32-bit two's complement
`int` holds. -/
def wrap_int32 (x : Int) : Int := (x + 2147483648) % 4294967296 - 2147483648

/-- Reduction of a mathematical integer to the value an `int64_t` holds. -/
def wrap_int64 (x : Int) : Int :=
  (x + 9223372036854775808) % 18446744073709551616 - 9223372036854775808

/-- Modelled from the spec: `utils::is_product_within_limit` of `utils/math.h`,
which is not among the sources; it is `factor2 == 0 || factor1 <= limit / factor2`
with the truncating division of C++. -/
def is_product_within_limit (factor1 factor2 limit : Int) : Bool :=
  factor2 == 0 || decide (factor1 ≤ Int.tdiv limit factor2)

/-- The access `domain_sizes[var]`. An index out of range is undefined
behaviour in the source; every statement below assumes the ids in range. -/
def domain_size (domain_sizes : List Int) (var : Nat) : Int :=
  domain_sizes.getD var 0

/-- The loop of `get_pdb_size`, started with the current value of `size`. -/
def get_pdb_size_loop (domain_sizes : List Int) : Int → Pattern → Int
  | size, [] => size
  | size, var :: rest =>
    if is_product_within_limit size (domain_size domain_sizes var) INT_MAX then
      get_pdb_size_loop domain_sizes
        (wrap_int32 (size * domain_size domain_sizes var)) rest
    else
      -1

/-- The function `get_pdb_size`: the number of abstract states of a pattern, or
`-1` when the product does not fit. -/
def get_pdb_size (domain_sizes : List Int) (pattern : Pattern) : Int :=
  get_pdb_size_loop domain_sizes 1 pattern

/-- The mathematical products `size * domain_sizes[var]` that the loop of
`get_pdb_size` forms, in order, before each is stored into the 32-bit `size`. -/
def get_pdb_size_products (domain_sizes : List Int) : Int → Pattern → List Int
  | _, [] => []
  | size, var :: rest =>
    if is_product_within_limit size (domain_size domain_sizes var) INT_MAX then
      (size * domain_size domain_sizes var) ::
        get_pdb_size_products domain_sizes
          (wrap_int32 (size * domain_size domain_sizes var)) rest
    else
      []

/-- The exact product of the domain sizes of the variables of a pattern. -/
def pattern_product (domain_sizes : List Int) (pattern : Pattern) : Int :=
  (pattern.map (domain_size domain_sizes)).prod

/-- A `double` as far as this file produces one: the rational value of a
finite double, or `+infinity`. -/
inductive Double where
  | finite : ℚ → Double
  | infinity : Double
deriving DecidableEq

/-- The comparison `score > 0.` on doubles. -/
def Double.is_positive : Double → Bool
  | Double.finite q => decide (0 < q)
  | Double.infinity => true

/-- The power `2 ^ e` for an integer exponent. -/
def pow2 (e : Int) : ℚ :=
  if 0 ≤ e then ((2 ^ e.toNat : Nat) : ℚ) else 1 / ((2 ^ (-e).toNat : Nat) : ℚ)

/-- The binary exponent of a rational `q ≠ 0`: the integer `k` with
`2 ^ k ≤ |q| < 2 ^ (k + 1)`. -/
def floor_log2 (q : ℚ) : Int :=
  if pow2 ((Nat.log2 q.num.natAbs : Int) - (Nat.log2 q.den : Int)) ≤ |q| then
    (Nat.log2 q.num.natAbs : Int) - (Nat.log2 q.den : Int)
  else
    (Nat.log2 q.num.natAbs : Int) - (Nat.log2 q.den : Int) - 1

/-- The integer nearest to `m`; of two nearest integers, the even one. -/
def round_half_even (m : ℚ) : Int :=
  if m - (⌊m⌋ : ℚ) < 1 / 2 then ⌊m⌋
  else if 1 / 2 < m - (⌊m⌋ : ℚ) then ⌊m⌋ + 1
  else if ⌊m⌋ % 2 = 0 then ⌊m⌋ else ⌊m⌋ + 1

/-- The rounding of IEEE 754 double arithmetic in its default mode: the number
with a significand of 53 bits nearest to `q`, ties to the even significand. -/
def round_double (q : ℚ) : ℚ :=
  if q = 0 then 0
  else if q < 0 then
    -((round_half_even (|q| / pow2 (floor_log2 q - 52)) : ℚ) * pow2 (floor_log2 q - 52))
  else
    (round_half_even (|q| / pow2 (floor_log2 q - 52)) : ℚ) * pow2 (floor_log2 q - 52)

/-- The loop of `compute_mean_finite_value`: `sum` and `size` after the
remaining entries have been visited. The entry, an `int`, converts to a double
without rounding; the addition `sum += values[i]` rounds. -/
def compute_mean_finite_value_loop : List Int → ℚ → Int → ℚ × Int
  | [], sum, size => (sum, size)
  | v :: rest, sum, size =>
    if v ≠ INT_MAX then
      compute_mean_finite_value_loop rest (round_double (sum + (v : ℚ))) (size + 1)
    else
      compute_mean_finite_value_loop rest sum size

/-- The function `compute_mean_finite_value`; `size`, an `int`, converts to a
double without rounding, and the division `sum / size` of doubles rounds. -/
def compute_mean_finite_value (values : List Int) : Double :=
  let r := compute_mean_finite_value_loop values 0 0
  if r.2 = 0 then Double.infinity else Double.finite (round_double (r.1 / (r.2 : ℚ)))

/-- The sum of a list of integers accumulated in a double from the left, each
addition rounded. -/
def double_sum (values : List Int) : ℚ :=
  values.foldl (fun (sum : ℚ) (v : Int) => round_double (sum + (v : ℚ))) 0

/-- The function `get_patterns`: the patterns of the systematic enumerator for
`pattern_max_size = pattern_size` whose size is exactly `pattern_size`. The
enumerator `PatternCollectionGeneratorSystematic` is the parameter
`systematic`. -/
def get_patterns (systematic : Int → PatternCollection) (pattern_size : Int) :
    PatternCollection :=
  (systematic pattern_size).filter (fun pattern => (pattern.length : Int) == pattern_size)

/-- The data members of `SequentialPatternGenerator` (the task is fixed and
enters through the enumerator). -/
structure SequentialPatternGenerator where
  max_pattern_size : Int
  current_pattern_size : Int
  current_patterns : PatternCollection
deriving DecidableEq

/-- The constructor of `SequentialPatternGenerator`; `num_variables` is
`TaskProxy(*task).get_variables().size()`. -/
def SequentialPatternGenerator.init (systematic : Int → PatternCollection)
    (num_variables : Nat) (max_pattern_size_ : Int) : SequentialPatternGenerator :=
  { max_pattern_size := min max_pattern_size_ (num_variables : Int)
    current_pattern_size := 1
    current_patterns := get_patterns systematic 1 }

/-- The body of `get_next_pattern`, with the recursion depth bounded by `depth`:
the returned pattern and the generator afterwards. The recursive call is made
only while `current_pattern_size < max_pattern_size`, so a depth of
`max_pattern_size - current_pattern_size` is never exhausted. -/
def get_next_pattern_rec (systematic : Int → PatternCollection) :
    Nat → SequentialPatternGenerator → Pattern × SequentialPatternGenerator
  | depth, g =>
    match g.current_patterns.getLast? with
    | some pattern =>
      (pattern, { g with current_patterns := g.current_patterns.dropLast })
    | none =>
      if g.current_pattern_size < g.max_pattern_size then
        match depth with
        | 0 => ([], g)
        | d + 1 =>
          get_next_pattern_rec systematic d
            { g with
              current_pattern_size := g.current_pattern_size + 1
              current_patterns := get_patterns systematic (g.current_pattern_size + 1) }
      else
        ([], g)

/-- The method `SequentialPatternGenerator::get_next_pattern`. -/
def get_next_pattern (systematic : Int → PatternCollection)
    (g : SequentialPatternGenerator) : Pattern × SequentialPatternGenerator :=
  get_next_pattern_rec systematic (g.max_pattern_size - g.current_pattern_size).toNat g

/-- The patterns returned by `n` successive calls of `get_next_pattern`. -/
def successive_patterns (systematic : Int → PatternCollection) :
    Nat → SequentialPatternGenerator → List Pattern
  | 0, _ => []
  | n + 1, g =>
    (get_next_pattern systematic g).1 ::
      successive_patterns systematic n (get_next_pattern systematic g).2

/-- The patterns of the sizes `first_size, first_size + 1, ...` (`count` sizes),
each size in the order in which its stack is popped. -/
def stacked_patterns (systematic : Int → PatternCollection) : Nat → Int → List Pattern
  | 0, _ => []
  | count + 1, first_size =>
    (get_patterns systematic first_size).reverse ++
      stacked_patterns systematic count (first_size + 1)

/-- The patterns a generator still has to return: its cached stack from the
back, then the stacks of the sizes up to `max_pattern_size`. -/
def pending_patterns (systematic : Int → PatternCollection)
    (g : SequentialPatternGenerator) : List Pattern :=
  g.current_patterns.reverse ++
    stacked_patterns systematic (g.max_pattern_size - g.current_pattern_size).toNat
      (g.current_pattern_size + 1)

/-- A `cost_saturation::Projection`, identified by the pattern it was built
for (`get_pattern()`). -/
structure Projection where
  pattern : Pattern
deriving DecidableEq

/-- The option values held by `PatternCollectionGeneratorFilteredSystematic`
(the timer of `max_time` is part of the environment, `debug` only prints). -/
structure Options where
  max_pattern_size : Int
  max_pdb_size : Int
  max_collection_size : Int
  max_patterns : Int

/-- What the selection reads from the task: the domain size of every variable
and the cost of every operator. -/
structure Task where
  variable_domains : List Int
  operator_costs : List Int

/-- The code the selection calls and this file does not define: the systematic
enumerator, the reading of the countdown timer at the start of each iteration,
and the projection methods with `cost_saturation::reduce_costs`. -/
structure Environment where
  systematic : Int → PatternCollection
  is_expired : Nat → Bool
  compute_goal_distances : Pattern → List Int → List Int
  compute_saturated_costs : Pattern → List Int → Nat → List Int
  reduce_costs : List Int → List Int → List Int

/-- The local variables of `select_systematic_patterns` that the loop changes,
with the number of iterations started so far. -/
structure SelectionState where
  iterations : Nat
  pattern_generator : SequentialPatternGenerator
  costs : List Int
  projections : List Projection
  collection_size : Int

/-- How an iteration of the `while (true)` loop ends: `again` when it reaches
a `continue` or runs through the body, `done` for a `break`. -/
inductive LoopStep where
  | again : SelectionState → LoopStep
  | done : SelectionState → LoopStep

/-- The state an iteration leaves behind. -/
def LoopStep.state : LoopStep → SelectionState
  | LoopStep.again s => s
  | LoopStep.done s => s

/-- The state after a pattern has been accepted: the costs are reduced, the
projection is pushed and `collection_size` grows by `pdb_size`. -/
def accept_pattern (env : Environment) (s : SelectionState)
    (g : SequentialPatternGenerator) (pattern : Pattern) (goal_distances : List Int)
    (pdb_size : Int) : SelectionState :=
  { iterations := s.iterations + 1
    pattern_generator := g
    costs := env.reduce_costs s.costs
      (env.compute_saturated_costs pattern goal_distances s.costs.length)
    projections := s.projections ++ [Projection.mk pattern]
    collection_size := wrap_int64 (s.collection_size + pdb_size) }

/-- The state after an iteration that only advanced the generator. -/
def skip_pattern (s : SelectionState) (g : SequentialPatternGenerator) : SelectionState :=
  { s with iterations := s.iterations + 1, pattern_generator := g }

/-- One iteration of the loop of `select_systematic_patterns`. -/
def loop_iteration (env : Environment) (opts : Options) (task : Task)
    (s : SelectionState) : LoopStep :=
  if env.is_expired s.iterations then
    LoopStep.done s
  else
    let next := get_next_pattern env.systematic s.pattern_generator
    if next.1 = [] then
      LoopStep.done (skip_pattern s next.2)
    else
      let pdb_size := get_pdb_size task.variable_domains next.1
      if pdb_size = -1 ∨ pdb_size > opts.max_pdb_size then
        LoopStep.again (skip_pattern s next.2)
      else if (s.projections.length : Int) = opts.max_patterns then
        LoopStep.done (skip_pattern s next.2)
      else if opts.max_collection_size ≠ INT_MAX ∧
          pdb_size > wrap_int64 (opts.max_collection_size - s.collection_size) then
        LoopStep.again (skip_pattern s next.2)
      else
        let goal_distances := env.compute_goal_distances next.1 s.costs
        if (compute_mean_finite_value goal_distances).is_positive then
          LoopStep.again (accept_pattern env s next.2 next.1 goal_distances pdb_size)
        else
          LoopStep.again (skip_pattern s next.2)

/-- The loop of `select_systematic_patterns`, cut after `n` iterations: the
state after the `n`-th iteration, or the state at the `break` when the loop
ended earlier. -/
def select_loop (env : Environment) (opts : Options) (task : Task) :
    Nat → SelectionState → SelectionState
  | 0, s => s
  | n + 1, s =>
    match loop_iteration env opts task s with
    | LoopStep.again s1 => select_loop env opts task n s1
    | LoopStep.done s1 => s1

/-- Whether the loop has left through a `break` within `n` iterations. -/
def loop_finished (env : Environment) (opts : Options) (task : Task) :
    Nat → SelectionState → Bool
  | 0, _ => false
  | n + 1, s =>
    match loop_iteration env opts task s with
    | LoopStep.again s1 => loop_finished env opts task n s1
    | LoopStep.done _ => true

/-- The state in which `select_systematic_patterns` enters its loop. -/
def initial_state (env : Environment) (opts : Options) (task : Task) : SelectionState :=
  { iterations := 0
    pattern_generator :=
      SequentialPatternGenerator.init env.systematic task.variable_domains.length
        opts.max_pattern_size
    costs := task.operator_costs
    projections := []
    collection_size := 0 }

/-- The number of iterations after which the loop has certainly ended: every
iteration that does not end the loop takes one pending pattern. -/
def iteration_bound (env : Environment) (opts : Options) (task : Task) : Nat :=
  (pending_patterns env.systematic (initial_state env opts task).pattern_generator).length + 1

/-- The local variables of `select_systematic_patterns` when its loop has
ended. -/
def final_state (env : Environment) (opts : Options) (task : Task) : SelectionState :=
  select_loop env opts task (iteration_bound env opts task) (initial_state env opts task)

/-- The result of `select_systematic_patterns`: the patterns and the
projections. -/
structure PatternCollectionInformation where
  patterns : PatternCollection
  projections : List Projection

/-- The function `select_systematic_patterns`. -/
def select_systematic_patterns (env : Environment) (opts : Options) (task : Task) :
    PatternCollectionInformation :=
  { patterns := (final_state env opts task).projections.map Projection.pattern
    projections := (final_state env opts task).projections }

/-! ## Example inputs -/

/-- An enumerator for a task with two variables: up to size 1 it yields the two
singleton patterns, up to size 2 also the pair. -/
def example_systematic : Int → PatternCollection := fun k =>
  if k = 1 then [[0], [1]] else if k = 2 then [[0], [1], [0, 1]] else []

/-- A task with three variables of 32768 values each and three operators of
cost 1. -/
def example_task : Task :=
  { variable_domains := [32768, 32768, 32768]
    operator_costs := [1, 1, 1] }

/-- An enumerator for `example_task`: the singleton patterns up to size 1, and
also the three pairs up to size 2. -/
def example_pairs_systematic : Int → PatternCollection := fun k =>
  if k = 1 then [[0], [1], [2]]
  else if k = 2 then [[0], [1], [2], [0, 1], [0, 2], [1, 2]]
  else []

/-- An environment for `example_task`: the timer never expires, and every
projection has a goal-distance table of mean 1/2, for which `[1, 0]` stands;
the saturated costs are zero and the reduction leaves the costs unchanged. -/
def example_env : Environment :=
  { systematic := example_pairs_systematic
    is_expired := fun _ => false
    compute_goal_distances := fun _ _ => [1, 0]
    compute_saturated_costs := fun _ _ num_operators => List.replicate num_operators 0
    reduce_costs := fun costs _ => costs }

/-- The default options with `max_pattern_size = 2` and every other budget
at its default `infinity`, which the option parser reads as `INT_MAX`. -/
def example_options_unbounded : Options :=
  { max_pattern_size := 2
    max_pdb_size := INT_MAX
    max_collection_size := INT_MAX
    max_patterns := INT_MAX }

/-- Options with every budget set: PDBs of at most 32768 states, a collection
of at most 70000 states and at most two patterns. -/
def example_options_bounded : Options :=
  { max_pattern_size := 2
    max_pdb_size := 32768
    max_collection_size := 70000
    max_patterns := 2 }

/-- The state in which the loop is entered on `example_task` with the default
budgets. -/
def example_state : SelectionState :=
  initial_state example_env example_options_unbounded example_task

/-! ## Cost saturation, modelled from the specification

`Projection::compute_saturated_costs` and `cost_saturation::reduce_costs` are
called by the selection loop and defined outside the sources. -/

/-- The struct `AbstractBackwardOperator` of `pattern_evaluator.h`: the id of
the concrete operator, and the difference between the index of a state and the
index of its predecessor under the operator. -/
structure AbstractBackwardOperator where
  concrete_operator_id : Nat
  hash_effect : Int
deriving DecidableEq

/-- Modelled from the spec: the difference of goal distances along the abstract
transition that `o` induces into state `s`, from the predecessor
`s + hash_effect` of the goal-distance solver; it counts when both states have
a finite distance and the predecessor lies in the table, and is 0 otherwise. -/
def saturation_candidate (goal_distances : List Int) (s : Nat)
    (o : AbstractBackwardOperator) : Int :=
  if goal_distances.getD s INT_MAX ≠ INT_MAX ∧ 0 ≤ (s : Int) + o.hash_effect ∧
      (s : Int) + o.hash_effect < (goal_distances.length : Int) ∧
      goal_distances.getD ((s : Int) + o.hash_effect).toNat INT_MAX ≠ INT_MAX then
    goal_distances.getD ((s : Int) + o.hash_effect).toNat INT_MAX -
      goal_distances.getD s INT_MAX
  else
    0

/-- Modelled from the spec: the saturated cost of one operator, "the minimum
amount that preserves the exact goal distances just computed": the least
non-negative cost under which no abstract transition of the operator leads
from a state to a state whose distance is smaller by more than the cost.
`applicable` is the applicability index of the projection: the abstract
backward operators applicable in a state. -/
def saturated_cost (applicable : Nat → List AbstractBackwardOperator)
    (goal_distances : List Int) (op : Nat) : Int :=
  (((List.range goal_distances.length).map (fun s =>
      ((applicable s).filter (fun o => o.concrete_operator_id = op)).map
        (saturation_candidate goal_distances s))).flatten).foldl max 0

/-- Modelled from the spec: `Projection::compute_saturated_costs`, which is not
among the sources: the saturated cost of every operator. -/
def compute_saturated_costs (applicable : Nat → List AbstractBackwardOperator)
    (goal_distances : List Int) (num_operators : Nat) : List Int :=
  (List.range num_operators).map (saturated_cost applicable goal_distances)

/-- Modelled from the spec: `cost_saturation::reduce_costs`, which is not among
the sources: "a pattern's selection reduces the vector by its saturated cost",
entry by entry. -/
def reduce_costs (remaining_costs saturated_costs : List Int) : List Int :=
  List.zipWith (fun remaining saturated => remaining - saturated) remaining_costs
    saturated_costs

/-- Modelled from the spec: what the exactness of the table of the
goal-distance solver gives for one transition: the distance of the predecessor
`s + hash_effect` is at most the cost of the operator plus the distance of `s`,
for every state `s` of finite distance and every backward operator applicable
in it. -/
def distances_consistent (applicable : Nat → List AbstractBackwardOperator)
    (costs goal_distances : List Int) : Prop :=
  ∀ s : Nat, s < goal_distances.length → ∀ o ∈ applicable s,
    goal_distances.getD s INT_MAX ≠ INT_MAX → 0 ≤ (s : Int) + o.hash_effect →
    (s : Int) + o.hash_effect < (goal_distances.length : Int) →
    goal_distances.getD ((s : Int) + o.hash_effect).toNat INT_MAX ≤
      costs.getD o.concrete_operator_id 0 + goal_distances.getD s INT_MAX

/-- The environment of the selection loop with the cost-saturation helpers as
modelled above; `applicable pattern` is the applicability index of the
projection of `pattern`. -/
def saturating_environment (systematic : Int → PatternCollection) (is_expired : Nat → Bool)
    (compute_goal_distances : Pattern → List Int → List Int)
    (applicable : Pattern → Nat → List AbstractBackwardOperator) : Environment :=
  { systematic := systematic
    is_expired := is_expired
    compute_goal_distances := compute_goal_distances
    compute_saturated_costs := fun pattern goal_distances num_operators =>
      compute_saturated_costs (applicable pattern) goal_distances num_operators
    reduce_costs := reduce_costs }

/-- The task of the end-to-end scenario of the specification: three binary
variables and three operators of cost 1, operator `v` toggling variable `v`;
the goal is value 1 for every variable. -/
def toggle_task : Task :=
  { variable_domains := [2, 2, 2]
    operator_costs := [1, 1, 1] }

/-- The enumerator of the scenario: the three singleton patterns. -/
def toggle_systematic : Int → PatternCollection := fun k =>
  if 1 ≤ k then [[0], [1], [2]] else []

/-- The goal distances of the projection to the single variable `v` under
`costs`: the cost of operator `v` for value 0, and 0 for value 1. -/
def toggle_goal_distances : Pattern → List Int → List Int
  | [v], costs => [costs.getD v 0, 0]
  | _, _ => []

/-- The applicability index of the projection to the single variable `v`:
operator `v` leads into state 1 from state 0 and into state 0 from state 1. -/
def toggle_applicable : Pattern → Nat → List AbstractBackwardOperator
  | [v], 0 => [AbstractBackwardOperator.mk v 1]
  | [v], 1 => [AbstractBackwardOperator.mk v (-1)]
  | _, _ => []

/-- The options of the scenario: patterns of size 1, every other budget at
its default. -/
def toggle_options : Options :=
  { max_pattern_size := 1
    max_pdb_size := INT_MAX
    max_collection_size := INT_MAX
    max_patterns := INT_MAX }

/-- The environment of the scenario; the timer never expires. -/
def toggle_env : Environment :=
  saturating_environment toggle_systematic (fun _ => false) toggle_goal_distances
    toggle_applicable

/-! ## The recursion of `get_next_pattern`, with its calls counted -/

/-- The body of `get_next_pattern` run with at most `fuel` recursive calls: the
returned pattern, the generator afterwards and the number of recursive calls
made, or `none` when a further recursive call would be needed after `fuel` of
them. -/
def get_next_pattern_fuel (systematic : Int → PatternCollection) :
    Nat → SequentialPatternGenerator → Option (Pattern × SequentialPatternGenerator × Nat)
  | fuel, g =>
    match g.current_patterns.getLast? with
    | some pattern =>
      some (pattern, { g with current_patterns := g.current_patterns.dropLast }, 0)
    | none =>
      if g.current_pattern_size < g.max_pattern_size then
        match fuel with
        | 0 => none
        | f + 1 =>
          match get_next_pattern_fuel systematic f
            { g with
              current_pattern_size := g.current_pattern_size + 1
              current_patterns := get_patterns systematic (g.current_pattern_size + 1) } with
          | some (pattern, g1, calls) => some (pattern, g1, calls + 1)
          | none => none
      else
        some ([], g, 0)

/-- An enumerator without any pattern. -/
def empty_systematic : Int → PatternCollection := fun _ => []

/-- A generator at size 1 with an empty stack and `max_pattern_size = 4`. -/
def example_generator : SequentialPatternGenerator :=
  { max_pattern_size := 4
    current_pattern_size := 1
    current_patterns := [] }

/-! ## The size of a pattern database -/

theorem wrap_int32_eq_self {x : Int} (h0 : -2147483648 ≤ x) (h1 : x ≤ INT_MAX) :
    wrap_int32 x = x := by
  unfold wrap_int32
  unfold INT_MAX at h1
  omega

theorem wrap_int64_eq_self {x : Int} (h0 : -9223372036854775808 ≤ x)
    (h1 : x ≤ 9223372036854775807) : wrap_int64 x = x := by
  unfold wrap_int64
  omega

theorem is_product_within_limit_iff {size d : Int} (hd : 1 ≤ d) :
    is_product_within_limit size d INT_MAX = true ↔ size * d ≤ INT_MAX := by
  have hd0 : d ≠ 0 := by omega
  have hdiv : Int.tdiv INT_MAX d = INT_MAX / d :=
    Int.tdiv_eq_ediv (by unfold INT_MAX; omega) (by omega)
  simp only [is_product_within_limit, Bool.or_eq_true, beq_iff_eq, decide_eq_true_eq, hd0,
    false_or, hdiv]
  exact Int.le_ediv_iff_mul_le (by omega)

theorem domain_size_pos {domain_sizes : List Int} (hdom : ∀ d ∈ domain_sizes, 1 ≤ d)
    {var : Nat} (hvar : var < domain_sizes.length) : 1 ≤ domain_size domain_sizes var := by
  unfold domain_size
  rw [List.getD_eq_getElem _ _ hvar]
  exact hdom _ (List.getElem_mem _)

theorem pattern_product_pos {domain_sizes : List Int} {pattern : Pattern}
    (h : ∀ var ∈ pattern, 1 ≤ domain_size domain_sizes var) :
    1 ≤ pattern_product domain_sizes pattern := by
  induction pattern with
  | nil => simp [pattern_product]
  | cons var rest ih =>
    have h1 : 1 ≤ domain_size domain_sizes var := h var (List.mem_cons_self _ _)
    have h2 : 1 ≤ pattern_product domain_sizes rest :=
      ih (fun v hv => h v (List.mem_cons_of_mem _ hv))
    have h3 : pattern_product domain_sizes (var :: rest) =
        domain_size domain_sizes var * pattern_product domain_sizes rest := by
      simp [pattern_product]
    rw [h3]
    nlinarith

theorem get_pdb_size_loop_exact (domain_sizes : List Int) (pattern : Pattern) :
    ∀ size : Int, 1 ≤ size → size ≤ INT_MAX →
      (∀ var ∈ pattern, 1 ≤ domain_size domain_sizes var) →
      get_pdb_size_loop domain_sizes size pattern =
          (if size * pattern_product domain_sizes pattern ≤ INT_MAX
            then size * pattern_product domain_sizes pattern else -1) ∧
        ∀ x ∈ get_pdb_size_products domain_sizes size pattern, 1 ≤ x ∧ x ≤ INT_MAX := by
  induction pattern with
  | nil =>
    intro size _ h1 _
    simp [get_pdb_size_loop, get_pdb_size_products, pattern_product, h1]
  | cons var rest ih =>
    intro size h0 h1 hpat
    have hd : 1 ≤ domain_size domain_sizes var := hpat var (List.mem_cons_self _ _)
    have hrest : ∀ v ∈ rest, 1 ≤ domain_size domain_sizes v :=
      fun v hv => hpat v (List.mem_cons_of_mem _ hv)
    have hprod : 1 ≤ pattern_product domain_sizes rest := pattern_product_pos hrest
    have hcons : pattern_product domain_sizes (var :: rest) =
        domain_size domain_sizes var * pattern_product domain_sizes rest := by
      simp [pattern_product]
    have hmul : 1 ≤ size * domain_size domain_sizes var := by nlinarith
    by_cases hfit : size * domain_size domain_sizes var ≤ INT_MAX
    · have hlim : is_product_within_limit size (domain_size domain_sizes var) INT_MAX = true :=
        (is_product_within_limit_iff hd).2 hfit
      have hwrap : wrap_int32 (size * domain_size domain_sizes var) =
          size * domain_size domain_sizes var := wrap_int32_eq_self (by omega) hfit
      obtain ⟨ih1, ih2⟩ := ih (size * domain_size domain_sizes var) hmul hfit hrest
      refine ⟨?_, ?_⟩
      · simp only [get_pdb_size_loop, hlim, if_true, hwrap, ih1, hcons, mul_assoc]
      · intro x hx
        simp only [get_pdb_size_products, hlim, if_true, hwrap, List.mem_cons] at hx
        rcases hx with hx | hx
        · subst hx
          exact ⟨hmul, hfit⟩
        · exact ih2 x hx
    · have hlim : ¬ is_product_within_limit size (domain_size domain_sizes var) INT_MAX = true :=
        fun h => hfit ((is_product_within_limit_iff hd).1 h)
      have hbig : ¬ size * pattern_product domain_sizes (var :: rest) ≤ INT_MAX := by
        rw [hcons, ← mul_assoc]
        intro hle
        apply hfit
        have : size * domain_size domain_sizes var * 1 ≤
            size * domain_size domain_sizes var * pattern_product domain_sizes rest :=
          Int.mul_le_mul_of_nonneg_left hprod (by omega)
        omega
      refine ⟨?_, ?_⟩
      · simp only [get_pdb_size_loop, hlim, if_false, hbig]
        simp
      · intro x hx
        simp [get_pdb_size_products, hlim] at hx

theorem get_pdb_size_eq_product (domain_sizes : List Int) (pattern : Pattern)
    (hdom : ∀ d ∈ domain_sizes, 1 ≤ d) (hpat : ∀ var ∈ pattern, var < domain_sizes.length) :
    get_pdb_size domain_sizes pattern =
      (if pattern_product domain_sizes pattern ≤ INT_MAX
        then pattern_product domain_sizes pattern else -1) := by
  have h := (get_pdb_size_loop_exact domain_sizes pattern 1 (le_refl 1) (by decide)
    (fun var hvar => domain_size_pos hdom (hpat var hvar))).1
  simpa [get_pdb_size] using h

/-- C1: for domain sizes that are all at least 1 and a pattern whose variable
ids index the vector, `get_pdb_size` returns the exact product of the domain
sizes of the pattern when that product is at most `INT_MAX`, and `-1`
otherwise; every product the loop forms before storing it into the 32-bit
`size` lies between 1 and `INT_MAX`, so the multiplication never wraps. -/
theorem get_pdb_size_exact_or_sentinel (domain_sizes : List Int) (pattern : Pattern)
    (hdom : ∀ d ∈ domain_sizes, 1 ≤ d) (hpat : ∀ var ∈ pattern, var < domain_sizes.length) :
    get_pdb_size domain_sizes pattern =
        (if pattern_product domain_sizes pattern ≤ INT_MAX
          then pattern_product domain_sizes pattern else -1) ∧
      ∀ x ∈ get_pdb_size_products domain_sizes 1 pattern, 1 ≤ x ∧ x ≤ INT_MAX :=
  ⟨get_pdb_size_eq_product domain_sizes pattern hdom hpat,
    (get_pdb_size_loop_exact domain_sizes pattern 1 (le_refl 1) (by decide)
      (fun var hvar => domain_size_pos hdom (hpat var hvar))).2⟩

/-- C1, witness: two variables of domain size 65536 give the sentinel, a
single one gives 65536. -/
theorem get_pdb_size_exact_or_sentinel_witness :
    (∀ d ∈ [(65536 : Int), 65536], 1 ≤ d) ∧
    (∀ var ∈ ([0, 1] : Pattern), var < [(65536 : Int), 65536].length) ∧
    get_pdb_size [65536, 65536] [0, 1] = -1 ∧
    (get_pdb_size [65536, 65536] [0, 1] =
        (if pattern_product [65536, 65536] [0, 1] ≤ INT_MAX
          then pattern_product [65536, 65536] [0, 1] else -1) ∧
      ∀ x ∈ get_pdb_size_products [65536, 65536] 1 [0, 1], 1 ≤ x ∧ x ≤ INT_MAX) :=
  ⟨by decide, by decide, by decide,
    get_pdb_size_exact_or_sentinel [65536, 65536] [0, 1] (by decide) (by decide)⟩

/-! ## The usefulness score -/

theorem compute_mean_finite_value_loop_eq (values : List Int) :
    ∀ (sum : ℚ) (size : Int),
      compute_mean_finite_value_loop values sum size =
        ((values.filter (fun v => decide (v ≠ INT_MAX))).foldl
            (fun (sum : ℚ) (v : Int) => round_double (sum + (v : ℚ))) sum,
          size + ((values.filter (fun v => decide (v ≠ INT_MAX))).length : Int)) := by
  induction values with
  | nil => intro sum size; simp [compute_mean_finite_value_loop]
  | cons v rest ih =>
    intro sum size
    by_cases hv : v = INT_MAX
    · simp [compute_mean_finite_value_loop, hv, ih]
    · simp only [compute_mean_finite_value_loop, ne_eq, hv, not_false_eq_true, if_true, ih,
        decide_True, List.filter_cons_of_pos, List.foldl_cons, List.length_cons,
        Nat.cast_add, Nat.cast_one, Prod.mk.injEq, true_and]
      ring

theorem compute_mean_finite_value_of_finite (values : List Int)
    (h : ∃ v ∈ values, v ≠ INT_MAX) :
    compute_mean_finite_value values =
      Double.finite
        (round_double
          (double_sum (values.filter (fun v => decide (v ≠ INT_MAX))) /
            (((values.filter (fun v => decide (v ≠ INT_MAX))).length : Nat) : ℚ))) := by
  obtain ⟨v, hv, hne⟩ := h
  have hmem : v ∈ values.filter (fun v => decide (v ≠ INT_MAX)) := by
    simp [List.mem_filter, hv, hne]
  have hlen : (values.filter (fun v => decide (v ≠ INT_MAX))).length ≠ 0 := by
    intro h0
    rw [List.length_eq_zero] at h0
    rw [h0] at hmem
    simp at hmem
  have hsize : ¬ ((0 : Int) + ((values.filter (fun v => decide (v ≠ INT_MAX))).length : Int) = 0) := by
    omega
  simp only [compute_mean_finite_value, compute_mean_finite_value_loop_eq, hsize, if_false,
    double_sum]
  simp

theorem pow2_of_nonpos {e : Int} (he : e ≤ 0) :
    pow2 e = 1 / ((2 ^ (-e).toNat : Nat) : ℚ) := by
  by_cases h0 : e = 0
  · subst h0
    simp [pow2]
  · have hneg : ¬ 0 ≤ e := by omega
    simp [pow2, hneg]

theorem round_half_even_intCast (N : Int) : round_half_even (N : ℚ) = N := by
  simp [round_half_even]

theorem floor_log2_intCast_le (n : Int) (hn : n ≠ 0) (hlt : |n| < 2 ^ 53) :
    floor_log2 (n : ℚ) ≤ 52 := by
  have habs : n.natAbs < 2 ^ 53 := by
    have h1 : (n.natAbs : Int) = |n| := Int.natCast_natAbs n
    have h2 : (n.natAbs : Int) < 2 ^ 53 := by rw [h1]; exact hlt
    exact_mod_cast h2
  have hne : n.natAbs ≠ 0 := Int.natAbs_ne_zero.2 hn
  have hlog : Nat.log2 n.natAbs < 53 := (Nat.log2_lt hne).2 habs
  have hone : Nat.log2 1 = 0 :=
    Nat.lt_one_iff.1 ((@Nat.log2_lt 1 1 (by decide)).2 (by decide))
  unfold floor_log2
  simp only [Rat.num_intCast, Rat.den_intCast, hone]
  split_ifs <;> omega

theorem round_double_intCast (n : Int) (hlt : |n| < 2 ^ 53) :
    round_double (n : ℚ) = (n : ℚ) := by
  by_cases hn : n = 0
  · subst hn
    simp [round_double]
  · have he : floor_log2 (n : ℚ) - 52 ≤ 0 := by
      have := floor_log2_intCast_le n hn hlt
      omega
    have hq : (n : ℚ) ≠ 0 := by exact_mod_cast hn
    have hpow : ((2 ^ (-(floor_log2 (n : ℚ) - 52)).toNat : Nat) : ℚ) ≠ 0 := by positivity
    have hm : |(n : ℚ)| / pow2 (floor_log2 (n : ℚ) - 52) =
        ((|n| * ((2 ^ (-(floor_log2 (n : ℚ) - 52)).toNat : Nat) : Int) : Int) : ℚ) := by
      rw [pow2_of_nonpos he]
      push_cast
      field_simp
    unfold round_double
    rw [if_neg hq, hm, round_half_even_intCast, pow2_of_nonpos he]
    have hback : ((|n| * ((2 ^ (-(floor_log2 (n : ℚ) - 52)).toNat : Nat) : Int) : Int) : ℚ) *
        (1 / ((2 ^ (-(floor_log2 (n : ℚ) - 52)).toNat : Nat) : ℚ)) = |(n : ℚ)| := by
      push_cast
      field_simp
    rw [hback]
    split_ifs with hneg
    · rw [abs_of_neg hneg]; ring
    · rw [abs_of_nonneg (not_lt.1 hneg)]

theorem foldl_round_double_exact (l : List Int) :
    ∀ acc : Int, (∀ k : Nat, k ≤ l.length → |acc + (l.take k).sum| < 2 ^ 53) →
      l.foldl (fun (sum : ℚ) (v : Int) => round_double (sum + (v : ℚ))) (acc : ℚ) =
        ((acc + l.sum : Int) : ℚ) := by
  induction l with
  | nil => intro acc _; simp
  | cons v rest ih =>
    intro acc h
    have h1 : |acc + v| < 2 ^ 53 := by
      have := h 1 (by simp)
      simpa using this
    have hstep : round_double ((acc : ℚ) + (v : ℚ)) = ((acc + v : Int) : ℚ) := by
      have := round_double_intCast (acc + v) h1
      rw [← this]
      push_cast
      rfl
    rw [List.foldl_cons, hstep, ih (acc + v)]
    · simp [add_assoc]
    · intro k hk
      have := h (k + 1) (by simp; omega)
      simpa [add_assoc] using this

/-- C6, counterexample: the table `[1, 0, 0]` has the mean 1/3, which no double
is; `compute_mean_finite_value` returns the double nearest to it,
6004799503160661 / 2^54. -/
theorem compute_mean_finite_value_not_exact_mean :
    (∃ v ∈ [(1 : Int), 0, 0], v ≠ INT_MAX) ∧
      compute_mean_finite_value [1, 0, 0] =
        Double.finite (6004799503160661 / 18014398509481984) ∧
      ¬ compute_mean_finite_value [1, 0, 0] =
        Double.finite
          (((([(1 : Int), 0, 0].filter (fun v => decide (v ≠ INT_MAX))).sum : Int) : ℚ) /
            ((([(1 : Int), 0, 0].filter (fun v => decide (v ≠ INT_MAX))).length : Nat) : ℚ)) := by
  decide!

/-- C6, as amended: for a table with at least one entry different from
`INT_MAX`, `compute_mean_finite_value` is the double quotient of the sum of the
entries different from `INT_MAX`, accumulated in a double from the left, by
their number; the entries equal to `INT_MAX` enter neither the sum nor the
count. While every partial sum of those entries is below 2^53 in absolute
value, the accumulated sum is exact, and the result is the double nearest to
the mean. -/
theorem compute_mean_finite_value_eq_rounded_mean (values : List Int)
    (h : ∃ v ∈ values, v ≠ INT_MAX) :
    compute_mean_finite_value values =
        Double.finite
          (round_double
            (double_sum (values.filter (fun v => decide (v ≠ INT_MAX))) /
              (((values.filter (fun v => decide (v ≠ INT_MAX))).length : Nat) : ℚ))) ∧
      ((∀ k : Nat, k ≤ (values.filter (fun v => decide (v ≠ INT_MAX))).length →
          |((values.filter (fun v => decide (v ≠ INT_MAX))).take k).sum| < 2 ^ 53) →
        compute_mean_finite_value values =
          Double.finite
            (round_double
              ((((values.filter (fun v => decide (v ≠ INT_MAX))).sum : Int) : ℚ) /
                (((values.filter (fun v => decide (v ≠ INT_MAX))).length : Nat) : ℚ)))) := by
  refine ⟨compute_mean_finite_value_of_finite values h, fun hexact => ?_⟩
  rw [compute_mean_finite_value_of_finite values h]
  have hsum := foldl_round_double_exact (values.filter (fun v => decide (v ≠ INT_MAX))) 0
    (by simpa using hexact)
  simp only [Int.cast_zero, zero_add] at hsum
  rw [double_sum, hsum]

/-- C6 as amended, witness: the table `[1, 0]` has mean 1/2, a double. -/
theorem compute_mean_finite_value_eq_rounded_mean_witness :
    (∃ v ∈ [(1 : Int), 0], v ≠ INT_MAX) ∧
    compute_mean_finite_value [1, 0] = Double.finite (1 / 2) ∧
    (compute_mean_finite_value [1, 0] =
        Double.finite
          (round_double
            (double_sum ([(1 : Int), 0].filter (fun v => decide (v ≠ INT_MAX))) /
              ((([(1 : Int), 0].filter (fun v => decide (v ≠ INT_MAX))).length : Nat) : ℚ))) ∧
      ((∀ k : Nat, k ≤ ([(1 : Int), 0].filter (fun v => decide (v ≠ INT_MAX))).length →
          |(([(1 : Int), 0].filter (fun v => decide (v ≠ INT_MAX))).take k).sum| < 2 ^ 53) →
        compute_mean_finite_value [1, 0] =
          Double.finite
            (round_double
              (((([(1 : Int), 0].filter (fun v => decide (v ≠ INT_MAX))).sum : Int) : ℚ) /
                ((([(1 : Int), 0].filter (fun v => decide (v ≠ INT_MAX))).length : Nat) :
                  ℚ))))) :=
  ⟨⟨1, by simp, by decide⟩, by decide!,
    compute_mean_finite_value_eq_rounded_mean [1, 0] ⟨1, by simp, by decide⟩⟩

/-- C7: for a table all of whose entries are `INT_MAX`, the empty table
included, `compute_mean_finite_value` returns `+infinity`. -/
theorem compute_mean_finite_value_all_unreachable (values : List Int)
    (h : ∀ v ∈ values, v = INT_MAX) :
    compute_mean_finite_value values = Double.infinity := by
  have hfilter : values.filter (fun v => decide (v ≠ INT_MAX)) = [] := by
    rw [List.filter_eq_nil_iff]
    intro v hv
    simp [h v hv]
  simp only [compute_mean_finite_value, compute_mean_finite_value_loop_eq, hfilter]
  simp

/-- C7, witness: a table of three unreachable states, and the empty table. -/
theorem compute_mean_finite_value_all_unreachable_witness :
    (∀ v ∈ [INT_MAX, INT_MAX, INT_MAX], v = INT_MAX) ∧
      compute_mean_finite_value [INT_MAX, INT_MAX, INT_MAX] = Double.infinity :=
  ⟨by simp, compute_mean_finite_value_all_unreachable [INT_MAX, INT_MAX, INT_MAX] (by simp)⟩

/-! ## The sequential pattern generator -/

theorem get_next_pattern_rec_pending (systematic : Int → PatternCollection) :
    ∀ (d : Nat) (g : SequentialPatternGenerator),
      (g.max_pattern_size - g.current_pattern_size).toNat = d →
      (get_next_pattern_rec systematic d g).1 = (pending_patterns systematic g).headD [] ∧
        pending_patterns systematic (get_next_pattern_rec systematic d g).2 =
          (pending_patterns systematic g).tail := by
  intro d
  induction d with
  | zero =>
    intro g hd
    obtain ⟨mx, cur, pats⟩ := g
    simp only at hd
    rcases List.eq_nil_or_concat pats with hp | ⟨l, p, hp⟩
    · subst hp
      have hlt : ¬ cur < mx := by omega
      simp [get_next_pattern_rec, pending_patterns, hlt, hd, stacked_patterns]
    · subst hp
      simp [get_next_pattern_rec, pending_patterns, hd, stacked_patterns]
  | succ d ih =>
    intro g hd
    obtain ⟨mx, cur, pats⟩ := g
    simp only at hd
    rcases List.eq_nil_or_concat pats with hp | ⟨l, p, hp⟩
    · subst hp
      have hlt : cur < mx := by omega
      have hd1 : (mx - (cur + 1)).toNat = d := by omega
      have h := ih ⟨mx, cur + 1, get_patterns systematic (cur + 1)⟩ hd1
      simp only [pending_patterns, hd1] at h
      simp only [get_next_pattern_rec, List.getLast?_nil, hlt, if_true, pending_patterns, hd,
        stacked_patterns, List.reverse_nil, List.nil_append]
      exact h
    · subst hp
      simp [get_next_pattern_rec, pending_patterns, hd]

/-- The depth bound of `get_next_pattern` is never exhausted: every bound of at
least `max_pattern_size - current_pattern_size` gives the same result. -/
theorem get_next_pattern_rec_depth_enough (systematic : Int → PatternCollection) :
    ∀ (d : Nat) (g : SequentialPatternGenerator),
      (g.max_pattern_size - g.current_pattern_size).toNat ≤ d →
      get_next_pattern_rec systematic d g = get_next_pattern systematic g := by
  intro d
  induction d with
  | zero =>
    intro g hd
    have h0 : (g.max_pattern_size - g.current_pattern_size).toNat = 0 := by omega
    simp only [get_next_pattern, h0]
  | succ d ih =>
    intro g hd
    obtain ⟨mx, cur, pats⟩ := g
    simp only at hd
    rcases List.eq_nil_or_concat pats with hp | ⟨l, p, hp⟩
    · subst hp
      by_cases hlt : cur < mx
      · obtain ⟨k, hk⟩ : ∃ k, (mx - cur).toNat = k + 1 := ⟨(mx - cur).toNat - 1, by omega⟩
        have hk1 : (mx - (cur + 1)).toNat = k := by omega
        have h1 := ih ⟨mx, cur + 1, get_patterns systematic (cur + 1)⟩ (by simp only; omega)
        simp only [get_next_pattern, hk, hk1] at h1 ⊢
        simp only [get_next_pattern_rec, List.getLast?_nil, hlt, if_true]
        exact h1
      · have h0 : (mx - cur).toNat = 0 := by omega
        simp [get_next_pattern, get_next_pattern_rec, hlt, h0]
    · subst hp
      unfold get_next_pattern
      cases (mx - cur).toNat <;> simp [get_next_pattern_rec]

theorem get_next_pattern_pending (systematic : Int → PatternCollection)
    (g : SequentialPatternGenerator) :
    (get_next_pattern systematic g).1 = (pending_patterns systematic g).headD [] ∧
      pending_patterns systematic (get_next_pattern systematic g).2 =
        (pending_patterns systematic g).tail :=
  get_next_pattern_rec_pending systematic _ g rfl

theorem successive_patterns_eq (systematic : Int → PatternCollection) :
    ∀ (n : Nat) (g : SequentialPatternGenerator),
      successive_patterns systematic n g =
        (pending_patterns systematic g ++ List.replicate n []).take n := by
  intro n
  induction n with
  | zero => intro g; simp [successive_patterns]
  | succ n ih =>
    intro g
    obtain ⟨h1, h2⟩ := get_next_pattern_pending systematic g
    simp only [successive_patterns, ih, h1, h2]
    cases hp : pending_patterns systematic g with
    | nil => simp [List.replicate_succ]
    | cons p rest =>
      simp only [List.headD_cons, List.tail_cons, List.cons_append, List.take_succ_cons,
        List.cons.injEq, true_and]
      have hsplit : rest ++ List.replicate (n + 1) ([] : Pattern) =
          (rest ++ List.replicate n []) ++ [[]] := by
        rw [List.replicate_succ', List.append_assoc]
      have htake : List.take n ((rest ++ List.replicate n ([] : Pattern)) ++ [[]]) =
          List.take n (rest ++ List.replicate n []) :=
        List.take_append_of_le_length (by simp)
      rw [hsplit, htake]

theorem mem_get_patterns_length {systematic : Int → PatternCollection} {k : Int}
    {p : Pattern} (h : p ∈ get_patterns systematic k) : (p.length : Int) = k := by
  simpa [get_patterns] using (List.mem_filter.1 h).2

theorem stacked_patterns_sizes (systematic : Int → PatternCollection) :
    ∀ (count : Nat) (k : Int),
      (∀ p ∈ stacked_patterns systematic count k, k ≤ (p.length : Int)) ∧
        List.Pairwise (fun p q : Pattern => p.length ≤ q.length)
          (stacked_patterns systematic count k) := by
  intro count
  induction count with
  | zero => intro k; simp [stacked_patterns]
  | succ c ih =>
    intro k
    obtain ⟨ih1, ih2⟩ := ih (k + 1)
    have hk : ∀ p ∈ (get_patterns systematic k).reverse, (p.length : Int) = k :=
      fun p hp => mem_get_patterns_length (List.mem_reverse.1 hp)
    constructor
    · intro p hp
      simp only [stacked_patterns, List.mem_append] at hp
      rcases hp with hp | hp
      · exact le_of_eq (hk p hp).symm
      · have := ih1 p hp
        omega
    · simp only [stacked_patterns]
      rw [List.pairwise_append]
      refine ⟨?_, ih2, ?_⟩
      · rw [List.pairwise_iff_forall_sublist]
        intro a b hab
        have ha := hk a (hab.subset (List.mem_cons_self _ _))
        have hb := hk b (hab.subset (List.mem_cons_of_mem _ (List.mem_cons_self _ _)))
        omega
      · intro a ha b hb
        have h1 := hk a ha
        have h2 := ih1 b hb
        omega

theorem stacked_patterns_eq_flatten (systematic : Int → PatternCollection) :
    ∀ (count : Nat) (k : Int),
      stacked_patterns systematic count k =
        ((List.range count).map
          (fun i : Nat => (get_patterns systematic (k + (i : Int))).reverse)).flatten := by
  intro count
  induction count with
  | zero => intro k; simp [stacked_patterns]
  | succ c ih =>
    intro k
    have hf : (fun i : Nat => (get_patterns systematic (k + 1 + (i : Int))).reverse) =
        (fun i : Nat => (get_patterns systematic (k + (i : Int))).reverse) ∘ Nat.succ := by
      funext i
      have hi : k + 1 + (i : Int) = k + ((Nat.succ i : Nat) : Int) := by
        push_cast
        ring
      simp only [Function.comp, hi]
    have h0 : k + ((0 : Nat) : Int) = k := by simp
    rw [List.range_succ_eq_map, List.map_cons, List.flatten_cons, List.map_map, ← hf, h0,
      ← ih (k + 1)]
    rfl

theorem pending_patterns_init (systematic : Int → PatternCollection) (num_variables : Nat)
    (max_pattern_size : Int) :
    pending_patterns systematic
        (SequentialPatternGenerator.init systematic num_variables max_pattern_size) =
      stacked_patterns systematic
        ((min max_pattern_size (num_variables : Int) - 1).toNat + 1) 1 := by
  simp [pending_patterns, SequentialPatternGenerator.init, stacked_patterns]

/-- C8: the patterns returned by successive calls of `get_next_pattern` on a
freshly built generator have non-decreasing sizes as far as they are non-empty:
of two calls, the earlier never returns a larger non-empty pattern than the
later one. The enumeration starts with size 1: when there is a pattern of
size 1, the first call returns one. -/
theorem returned_sizes_non_decreasing (systematic : Int → PatternCollection)
    (num_variables : Nat) (max_pattern_size : Int) (calls : Nat) :
    List.Pairwise (fun p q : Pattern => p ≠ [] → q ≠ [] → p.length ≤ q.length)
        (successive_patterns systematic calls
          (SequentialPatternGenerator.init systematic num_variables max_pattern_size)) ∧
      (get_patterns systematic 1 ≠ [] →
        (get_next_pattern systematic
          (SequentialPatternGenerator.init systematic num_variables max_pattern_size)).1.length
            = 1) := by
  constructor
  · rw [successive_patterns_eq, pending_patterns_init]
    apply List.Pairwise.sublist (List.take_sublist _ _)
    rw [List.pairwise_append]
    refine ⟨?_, ?_, ?_⟩
    · exact List.Pairwise.imp (fun h _ _ => h) (stacked_patterns_sizes systematic _ 1).2
    · rw [List.pairwise_replicate]
      exact Or.inr (fun h => absurd rfl h)
    · intro a _ b hb _ hne
      rw [List.mem_replicate] at hb
      exact absurd hb.2 hne
  · intro hne
    rw [(get_next_pattern_pending systematic _).1, pending_patterns_init]
    obtain ⟨l, p, hp⟩ := (List.eq_nil_or_concat (get_patterns systematic 1)).resolve_left hne
    have hmem : p ∈ get_patterns systematic 1 := by rw [hp]; simp
    have hlen := mem_get_patterns_length hmem
    simp only [stacked_patterns, hp, List.concat_eq_append, List.reverse_append,
      List.reverse_cons, List.reverse_nil, List.nil_append, List.singleton_append,
      List.cons_append, List.headD_cons]
    omega

/-- C8, worked example: with two singleton patterns and one pair, six calls
return sizes 1, 1, 2 and then the empty pattern. -/
theorem returned_sizes_non_decreasing_witness :
    successive_patterns example_systematic 6
        (SequentialPatternGenerator.init example_systematic 2 2) =
      [[1], [0], [0, 1], [], [], []] ∧
    (List.Pairwise (fun p q : Pattern => p ≠ [] → q ≠ [] → p.length ≤ q.length)
        (successive_patterns example_systematic 6
          (SequentialPatternGenerator.init example_systematic 2 2)) ∧
      (get_patterns example_systematic 1 ≠ [] →
        (get_next_pattern example_systematic
          (SequentialPatternGenerator.init example_systematic 2 2)).1.length = 1)) :=
  ⟨by decide, returned_sizes_non_decreasing example_systematic 2 2 6⟩

/-- C9: on a generator built with `max_pattern_size >= 1` over a task with at
least one variable, successive calls of `get_next_pattern` return the patterns
of `get_patterns` for the sizes 1 to `m = min(max_pattern_size, n)`, each size
from the back of its list to the front, every cached pattern once, and the
empty pattern on every call after that; none of these patterns is empty, so the
empty pattern is not returned before all of them have been. -/
theorem get_next_pattern_sequence (systematic : Int → PatternCollection)
    (num_variables : Nat) (max_pattern_size : Int) (hmax : 1 ≤ max_pattern_size)
    (hvars : 1 ≤ num_variables) (calls : Nat) :
    successive_patterns systematic calls
        (SequentialPatternGenerator.init systematic num_variables max_pattern_size) =
      ((((List.range (min max_pattern_size (num_variables : Int)).toNat).map
            (fun i : Nat => (get_patterns systematic ((i : Int) + 1)).reverse)).flatten ++
          List.replicate calls []).take calls) ∧
      ∀ p ∈ ((List.range (min max_pattern_size (num_variables : Int)).toNat).map
            (fun i : Nat => (get_patterns systematic ((i : Int) + 1)).reverse)).flatten,
        p ≠ [] := by
  have hm : (min max_pattern_size (num_variables : Int) - 1).toNat + 1 =
      (min max_pattern_size (num_variables : Int)).toNat := by omega
  have hf : (fun i : Nat => (get_patterns systematic ((i : Int) + 1)).reverse) =
      (fun i : Nat => (get_patterns systematic (1 + (i : Int))).reverse) := by
    funext i
    rw [add_comm]
  rw [hf, ← stacked_patterns_eq_flatten, ← hm, ← pending_patterns_init systematic num_variables,
    ← successive_patterns_eq]
  refine ⟨rfl, ?_⟩
  intro p hp hnil
  rw [pending_patterns_init] at hp
  have h := (stacked_patterns_sizes systematic _ 1).1 p hp
  rw [hnil] at h
  simp at h

/-- C9, witness: two singleton patterns and one pair are returned as
`[1]`, `[0]`, `[0, 1]`, followed by the empty pattern. -/
theorem get_next_pattern_sequence_witness :
    (1 : Int) ≤ 2 ∧ 1 ≤ 2 ∧
    successive_patterns example_systematic 5
        (SequentialPatternGenerator.init example_systematic 2 2) =
      [[1], [0], [0, 1], [], []] ∧
    (successive_patterns example_systematic 5
        (SequentialPatternGenerator.init example_systematic 2 2) =
      ((((List.range (min (2 : Int) ((2 : Nat) : Int)).toNat).map
            (fun i : Nat => (get_patterns example_systematic ((i : Int) + 1)).reverse)).flatten ++
          List.replicate 5 []).take 5) ∧
      ∀ p ∈ ((List.range (min (2 : Int) ((2 : Nat) : Int)).toNat).map
            (fun i : Nat => (get_patterns example_systematic ((i : Int) + 1)).reverse)).flatten,
        p ≠ []) :=
  ⟨by decide, by decide, by decide,
    get_next_pattern_sequence example_systematic 2 2 (by decide) (by decide) 5⟩

/-! ## The selection loop -/

theorem loop_iteration_cases (env : Environment) (opts : Options) (task : Task)
    (s : SelectionState) :
    (loop_iteration env opts task s).state = s ∨
      (loop_iteration env opts task s).state =
        skip_pattern s (get_next_pattern env.systematic s.pattern_generator).2 ∨
      ((get_next_pattern env.systematic s.pattern_generator).1 ≠ [] ∧
        get_pdb_size task.variable_domains
          (get_next_pattern env.systematic s.pattern_generator).1 ≠ -1 ∧
        get_pdb_size task.variable_domains
          (get_next_pattern env.systematic s.pattern_generator).1 ≤ opts.max_pdb_size ∧
        (s.projections.length : Int) ≠ opts.max_patterns ∧
        ¬ (opts.max_collection_size ≠ INT_MAX ∧
          get_pdb_size task.variable_domains
              (get_next_pattern env.systematic s.pattern_generator).1 >
            wrap_int64 (opts.max_collection_size - s.collection_size)) ∧
        (loop_iteration env opts task s).state =
          accept_pattern env s (get_next_pattern env.systematic s.pattern_generator).2
            (get_next_pattern env.systematic s.pattern_generator).1
            (env.compute_goal_distances
              (get_next_pattern env.systematic s.pattern_generator).1 s.costs)
            (get_pdb_size task.variable_domains
              (get_next_pattern env.systematic s.pattern_generator).1)) := by
  unfold loop_iteration
  simp only
  split_ifs with h1 h2 h3 h4 h5 h6
  · exact Or.inl rfl
  · exact Or.inr (Or.inl rfl)
  · exact Or.inr (Or.inl rfl)
  · exact Or.inr (Or.inl rfl)
  · exact Or.inr (Or.inl rfl)
  · refine Or.inr (Or.inr ⟨h2, ?_, ?_, h4, h5, rfl⟩)
    · exact fun h => h3 (Or.inl h)
    · exact not_lt.1 (fun h => h3 (Or.inr h))
  · exact Or.inr (Or.inl rfl)

theorem select_loop_invariant (env : Environment) (opts : Options) (task : Task)
    (Inv : SelectionState → Prop)
    (hstep : ∀ s, Inv s → Inv (loop_iteration env opts task s).state) :
    ∀ (n : Nat) (s : SelectionState), Inv s → Inv (select_loop env opts task n s) := by
  intro n
  induction n with
  | zero => intro s hs; exact hs
  | succ n ih =>
    intro s hs
    have h := hstep s hs
    unfold select_loop
    cases hit : loop_iteration env opts task s with
    | again s1 =>
      rw [hit] at h
      exact ih s1 h
    | done s1 =>
      rw [hit] at h
      exact h

theorem max_patterns_step (env : Environment) (opts : Options) (task : Task)
    (s : SelectionState) (hs : (s.projections.length : Int) ≤ opts.max_patterns) :
    ((loop_iteration env opts task s).state.projections.length : Int) ≤ opts.max_patterns := by
  rcases loop_iteration_cases env opts task s with h | h | ⟨_, _, _, hne, _, h⟩
  · rw [h]; exact hs
  · rw [h]; exact hs
  · rw [h]
    simp only [accept_pattern, List.length_append, List.length_singleton, Nat.cast_add,
      Nat.cast_one]
    omega

/-- C4: for `max_patterns >= 1`, the number of projections held by
`select_systematic_patterns` is at most `max_patterns` after every number of
loop iterations, and the returned collection has at most `max_patterns`
patterns and as many projections. -/
theorem projections_within_max_patterns (env : Environment) (opts : Options) (task : Task)
    (hmax : 1 ≤ opts.max_patterns) :
    (∀ n : Nat,
      ((select_loop env opts task n (initial_state env opts task)).projections.length : Int) ≤
        opts.max_patterns) ∧
      ((select_systematic_patterns env opts task).patterns.length : Int) ≤ opts.max_patterns ∧
      ((select_systematic_patterns env opts task).projections.length : Int) ≤
        opts.max_patterns ∧
      (select_systematic_patterns env opts task).patterns.length =
        (select_systematic_patterns env opts task).projections.length := by
  have hall : ∀ n : Nat,
      ((select_loop env opts task n (initial_state env opts task)).projections.length : Int) ≤
        opts.max_patterns := by
    intro n
    apply select_loop_invariant env opts task
      (fun s => (s.projections.length : Int) ≤ opts.max_patterns)
      (max_patterns_step env opts task)
    simp only [initial_state, List.length_nil, Nat.cast_zero]
    omega
  refine ⟨hall, ?_, ?_, ?_⟩
  · simpa [select_systematic_patterns, final_state] using hall (iteration_bound env opts task)
  · simpa [select_systematic_patterns, final_state] using hall (iteration_bound env opts task)
  · simp [select_systematic_patterns]

theorem get_pdb_size_loop_range (domain_sizes : List Int) (pattern : Pattern) :
    ∀ size : Int, 0 ≤ size → size ≤ INT_MAX →
      get_pdb_size_loop domain_sizes size pattern = -1 ∨
        (0 ≤ get_pdb_size_loop domain_sizes size pattern ∧
          get_pdb_size_loop domain_sizes size pattern ≤ INT_MAX) := by
  induction pattern with
  | nil =>
    intro size h0 h1
    exact Or.inr ⟨h0, h1⟩
  | cons var rest ih =>
    intro size h0 h1
    by_cases hlim : is_product_within_limit size (domain_size domain_sizes var) INT_MAX = true
    · have hprod : 0 ≤ size * domain_size domain_sizes var ∧
          size * domain_size domain_sizes var ≤ INT_MAX := by
        rcases lt_trichotomy (domain_size domain_sizes var) 0 with hd | hd | hd
        · have hle : size ≤ Int.tdiv INT_MAX (domain_size domain_sizes var) := by
            have hd0 : domain_size domain_sizes var ≠ 0 := by omega
            simpa [is_product_within_limit, hd0] using hlim
          have hneg : Int.tdiv INT_MAX (domain_size domain_sizes var) =
              -Int.tdiv INT_MAX (-domain_size domain_sizes var) := by
            rw [← Int.tdiv_neg, neg_neg]
          have hnn : 0 ≤ Int.tdiv INT_MAX (-domain_size domain_sizes var) :=
            Int.tdiv_nonneg (by decide) (by omega)
          have hsz : size = 0 := by omega
          rw [hsz]
          simp only [zero_mul, le_refl, true_and]
          decide
        · rw [hd]
          simp only [mul_zero, le_refl, true_and]
          decide
        · exact ⟨Int.mul_nonneg h0 (by omega),
            (is_product_within_limit_iff (by omega)).1 hlim⟩
      have hwrap : wrap_int32 (size * domain_size domain_sizes var) =
          size * domain_size domain_sizes var :=
        wrap_int32_eq_self (by omega) hprod.2
      simp only [get_pdb_size_loop, hlim, if_true, hwrap]
      exact ih _ hprod.1 hprod.2
    · simp [get_pdb_size_loop, hlim]

theorem get_pdb_size_range (domain_sizes : List Int) (pattern : Pattern) :
    get_pdb_size domain_sizes pattern = -1 ∨
      (0 ≤ get_pdb_size domain_sizes pattern ∧ get_pdb_size domain_sizes pattern ≤ INT_MAX) :=
  get_pdb_size_loop_range domain_sizes pattern 1 (by decide) (by decide)

theorem collection_size_step (env : Environment) (opts : Options) (task : Task)
    (h1 : 1 ≤ opts.max_collection_size) (h2 : opts.max_collection_size < INT_MAX)
    (s : SelectionState)
    (hs : 0 ≤ s.collection_size ∧ s.collection_size ≤ opts.max_collection_size ∧
      s.collection_size =
        (s.projections.map (fun proj => get_pdb_size task.variable_domains proj.pattern)).sum) :
    0 ≤ (loop_iteration env opts task s).state.collection_size ∧
      (loop_iteration env opts task s).state.collection_size ≤ opts.max_collection_size ∧
      (loop_iteration env opts task s).state.collection_size =
        ((loop_iteration env opts task s).state.projections.map
          (fun proj => get_pdb_size task.variable_domains proj.pattern)).sum := by
  rcases loop_iteration_cases env opts task s with h | h | ⟨_, hne, _, _, hbudget, h⟩
  · rw [h]; exact hs
  · rw [h]; exact hs
  · rw [h]
    obtain ⟨hs0, hs1, hs2⟩ := hs
    have hnn : 0 ≤ get_pdb_size task.variable_domains
        (get_next_pattern env.systematic s.pattern_generator).1 := by
      rcases get_pdb_size_range task.variable_domains
        (get_next_pattern env.systematic s.pattern_generator).1 with hr | hr
      · exact absurd hr hne
      · exact hr.1
    have hint : INT_MAX = 2147483647 := rfl
    have hrem : wrap_int64 (opts.max_collection_size - s.collection_size) =
        opts.max_collection_size - s.collection_size :=
      wrap_int64_eq_self (by omega) (by omega)
    have hfit : get_pdb_size task.variable_domains
        (get_next_pattern env.systematic s.pattern_generator).1 ≤
          opts.max_collection_size - s.collection_size := by
      rw [hrem] at hbudget
      by_contra hcon
      exact hbudget ⟨by omega, by omega⟩
    have hsum : wrap_int64 (s.collection_size + get_pdb_size task.variable_domains
        (get_next_pattern env.systematic s.pattern_generator).1) =
          s.collection_size + get_pdb_size task.variable_domains
            (get_next_pattern env.systematic s.pattern_generator).1 :=
      wrap_int64_eq_self (by omega) (by omega)
    simp only [accept_pattern, hsum, List.map_append, List.sum_append, List.map_cons,
      List.map_nil, List.sum_cons, List.sum_nil, add_zero]
    refine ⟨by omega, by omega, ?_⟩
    rw [← hs2]

/-- C2, counterexample: with `max_collection_size` at its default `INT_MAX`
the budget test is switched off; three variables of 32768 values and patterns
up to size 2 give a collection of 3221323776 states, more than
`max_collection_size = 2147483647`. -/
theorem collection_size_exceeds_default_budget :
    1 ≤ example_options_unbounded.max_collection_size ∧
      (final_state example_env example_options_unbounded example_task).collection_size =
        3221323776 ∧
      ¬ (final_state example_env example_options_unbounded example_task).collection_size ≤
        example_options_unbounded.max_collection_size := by
  decide!

/-- C2, as amended: for `1 <= max_collection_size < INT_MAX`, after every
number of loop iterations `collection_size` is the sum of the PDB sizes of the
accepted patterns and is at most `max_collection_size`; the same holds when
the loop has ended. -/
theorem collection_size_within_budget (env : Environment) (opts : Options) (task : Task)
    (h1 : 1 ≤ opts.max_collection_size) (h2 : opts.max_collection_size < INT_MAX) :
    (∀ n : Nat,
      (select_loop env opts task n (initial_state env opts task)).collection_size =
          ((select_loop env opts task n (initial_state env opts task)).projections.map
            (fun proj => get_pdb_size task.variable_domains proj.pattern)).sum ∧
        (select_loop env opts task n (initial_state env opts task)).collection_size ≤
          opts.max_collection_size) ∧
      (final_state env opts task).collection_size =
        ((select_systematic_patterns env opts task).patterns.map
          (fun pattern => get_pdb_size task.variable_domains pattern)).sum ∧
      (final_state env opts task).collection_size ≤ opts.max_collection_size := by
  have hall : ∀ n : Nat,
      0 ≤ (select_loop env opts task n (initial_state env opts task)).collection_size ∧
      (select_loop env opts task n (initial_state env opts task)).collection_size ≤
        opts.max_collection_size ∧
      (select_loop env opts task n (initial_state env opts task)).collection_size =
        ((select_loop env opts task n (initial_state env opts task)).projections.map
          (fun proj => get_pdb_size task.variable_domains proj.pattern)).sum := by
    intro n
    apply select_loop_invariant env opts task
      (fun s => 0 ≤ s.collection_size ∧ s.collection_size ≤ opts.max_collection_size ∧
        s.collection_size =
          (s.projections.map (fun proj => get_pdb_size task.variable_domains proj.pattern)).sum)
      (collection_size_step env opts task h1 h2)
    simp only [initial_state, List.map_nil, List.sum_nil, le_refl, true_and, and_true]
    omega
  refine ⟨fun n => ⟨(hall n).2.2, (hall n).2.1⟩, ?_, ?_⟩
  · have h := (hall (iteration_bound env opts task)).2.2
    simpa [select_systematic_patterns, final_state, List.map_map, Function.comp] using h
  · exact (hall (iteration_bound env opts task)).2.1

/-- C2 as amended, witness: with a budget of 70000 states two singleton
patterns of 32768 states are accepted. -/
theorem collection_size_within_budget_witness :
    1 ≤ example_options_bounded.max_collection_size ∧
    example_options_bounded.max_collection_size < INT_MAX ∧
    (final_state example_env example_options_bounded example_task).collection_size = 65536 ∧
    ((∀ n : Nat,
      (select_loop example_env example_options_bounded example_task n
          (initial_state example_env example_options_bounded example_task)).collection_size =
          ((select_loop example_env example_options_bounded example_task n
              (initial_state example_env example_options_bounded example_task)).projections.map
            (fun proj => get_pdb_size example_task.variable_domains proj.pattern)).sum ∧
        (select_loop example_env example_options_bounded example_task n
          (initial_state example_env example_options_bounded example_task)).collection_size ≤
          example_options_bounded.max_collection_size) ∧
      (final_state example_env example_options_bounded example_task).collection_size =
        ((select_systematic_patterns example_env example_options_bounded
            example_task).patterns.map
          (fun pattern => get_pdb_size example_task.variable_domains pattern)).sum ∧
      (final_state example_env example_options_bounded example_task).collection_size ≤
        example_options_bounded.max_collection_size) :=
  ⟨by decide, by decide, by decide!,
    collection_size_within_budget example_env example_options_bounded example_task
      (by decide) (by decide)⟩

/-- C4, witness: with `max_patterns = 2` the selection ends with two
projections. -/
theorem projections_within_max_patterns_witness :
    1 ≤ example_options_bounded.max_patterns ∧
    (select_systematic_patterns example_env example_options_bounded example_task).patterns =
      [[2], [1]] ∧
    ((∀ n : Nat,
      ((select_loop example_env example_options_bounded example_task n
          (initial_state example_env example_options_bounded
            example_task)).projections.length : Int) ≤
        example_options_bounded.max_patterns) ∧
      ((select_systematic_patterns example_env example_options_bounded
          example_task).patterns.length : Int) ≤ example_options_bounded.max_patterns ∧
      ((select_systematic_patterns example_env example_options_bounded
          example_task).projections.length : Int) ≤ example_options_bounded.max_patterns ∧
      (select_systematic_patterns example_env example_options_bounded example_task).patterns.length =
        (select_systematic_patterns example_env example_options_bounded
          example_task).projections.length) :=
  ⟨by decide, by decide!,
    projections_within_max_patterns example_env example_options_bounded example_task
      (by decide)⟩

theorem stacked_patterns_mem (systematic : Int → PatternCollection) :
    ∀ (count : Nat) (k : Int) (p : Pattern),
      p ∈ stacked_patterns systematic count k → ∃ j, p ∈ systematic j := by
  intro count
  induction count with
  | zero => intro k p hp; simp [stacked_patterns] at hp
  | succ c ih =>
    intro k p hp
    simp only [stacked_patterns, List.mem_append, List.mem_reverse] at hp
    rcases hp with hp | hp
    · exact ⟨k, (List.mem_filter.1 hp).1⟩
    · exact ih (k + 1) p hp

theorem get_next_pattern_mem_pending (systematic : Int → PatternCollection)
    (g : SequentialPatternGenerator) (hne : (get_next_pattern systematic g).1 ≠ []) :
    (get_next_pattern systematic g).1 ∈ pending_patterns systematic g := by
  have h := (get_next_pattern_pending systematic g).1
  cases hp : pending_patterns systematic g with
  | nil =>
    rw [hp] at h
    exact absurd h hne
  | cons p rest =>
    rw [hp] at h
    rw [h]
    simp

theorem pending_patterns_next_subset (systematic : Int → PatternCollection)
    (g : SequentialPatternGenerator) (p : Pattern)
    (hp : p ∈ pending_patterns systematic (get_next_pattern systematic g).2) :
    p ∈ pending_patterns systematic g := by
  rw [(get_next_pattern_pending systematic g).2] at hp
  exact List.mem_of_mem_tail hp

theorem max_pdb_size_step (env : Environment) (opts : Options) (task : Task)
    (hdom : ∀ d ∈ task.variable_domains, 1 ≤ d) (s : SelectionState)
    (hs : (∀ p ∈ pending_patterns env.systematic s.pattern_generator,
          ∀ var ∈ p, var < task.variable_domains.length) ∧
      ∀ proj ∈ s.projections,
        pattern_product task.variable_domains proj.pattern ≤ opts.max_pdb_size) :
    (∀ p ∈ pending_patterns env.systematic (loop_iteration env opts task s).state.pattern_generator,
          ∀ var ∈ p, var < task.variable_domains.length) ∧
      ∀ proj ∈ (loop_iteration env opts task s).state.projections,
        pattern_product task.variable_domains proj.pattern ≤ opts.max_pdb_size := by
  obtain ⟨hs1, hs2⟩ := hs
  have hnext : ∀ p ∈ pending_patterns env.systematic
      (get_next_pattern env.systematic s.pattern_generator).2,
      ∀ var ∈ p, var < task.variable_domains.length :=
    fun p hp => hs1 p (pending_patterns_next_subset env.systematic _ p hp)
  rcases loop_iteration_cases env opts task s with h | h | ⟨hne, hsent, hle, _, _, h⟩
  · rw [h]; exact ⟨hs1, hs2⟩
  · rw [h]; exact ⟨hnext, hs2⟩
  · rw [h]
    refine ⟨hnext, ?_⟩
    intro proj hproj
    simp only [accept_pattern, List.mem_append, List.mem_singleton] at hproj
    rcases hproj with hproj | hproj
    · exact hs2 proj hproj
    · rw [hproj]
      have hvalid := hs1 _ (get_next_pattern_mem_pending env.systematic _ hne)
      have heq := get_pdb_size_eq_product task.variable_domains _ hdom hvalid
      by_cases hfit : pattern_product task.variable_domains
          (get_next_pattern env.systematic s.pattern_generator).1 ≤ INT_MAX
      · rw [if_pos hfit] at heq
        rw [← heq]
        exact hle
      · rw [if_neg hfit] at heq
        exact absurd heq hsent

theorem oversized_pattern_skipped (env : Environment) (opts : Options) (task : Task)
    (hdom : ∀ d ∈ task.variable_domains, 1 ≤ d) (s : SelectionState)
    (hexp : env.is_expired s.iterations = false)
    (hne : (get_next_pattern env.systematic s.pattern_generator).1 ≠ [])
    (hvalid : ∀ var ∈ (get_next_pattern env.systematic s.pattern_generator).1,
      var < task.variable_domains.length)
    (hbig : opts.max_pdb_size < pattern_product task.variable_domains
        (get_next_pattern env.systematic s.pattern_generator).1 ∨
      INT_MAX < pattern_product task.variable_domains
        (get_next_pattern env.systematic s.pattern_generator).1) :
    loop_iteration env opts task s =
      LoopStep.again (skip_pattern s (get_next_pattern env.systematic s.pattern_generator).2) := by
  have heq := get_pdb_size_eq_product task.variable_domains _ hdom hvalid
  have hcond : get_pdb_size task.variable_domains
        (get_next_pattern env.systematic s.pattern_generator).1 = -1 ∨
      get_pdb_size task.variable_domains
        (get_next_pattern env.systematic s.pattern_generator).1 > opts.max_pdb_size := by
    by_cases hfit : pattern_product task.variable_domains
        (get_next_pattern env.systematic s.pattern_generator).1 ≤ INT_MAX
    · rw [if_pos hfit] at heq
      rcases hbig with hbig | hbig
      · right
        rw [heq]
        exact hbig
      · omega
    · rw [if_neg hfit] at heq
      exact Or.inl heq
  unfold loop_iteration
  simp only [hexp, Bool.false_eq_true, if_false, hne, hcond, if_true]

/-- C3: for a task whose domain sizes are all at least 1 and an enumerator
whose patterns consist of variable ids of the task, every pattern held after
any number of loop iterations, and every pattern of the returned collection,
has a product of domain sizes of at most `max_pdb_size`; and an iteration that
draws a pattern whose product exceeds `max_pdb_size` or `INT_MAX` leaves the
collection as it was and continues with the next pattern. -/
theorem accepted_patterns_within_max_pdb_size (env : Environment) (opts : Options)
    (task : Task) (hdom : ∀ d ∈ task.variable_domains, 1 ≤ d)
    (hsys : ∀ k, ∀ p ∈ env.systematic k, ∀ var ∈ p, var < task.variable_domains.length) :
    (∀ n : Nat, ∀ proj ∈ (select_loop env opts task n (initial_state env opts task)).projections,
      pattern_product task.variable_domains proj.pattern ≤ opts.max_pdb_size) ∧
    (∀ pattern ∈ (select_systematic_patterns env opts task).patterns,
      pattern_product task.variable_domains pattern ≤ opts.max_pdb_size) ∧
    (∀ n : Nat,
      env.is_expired (select_loop env opts task n (initial_state env opts task)).iterations
        = false →
      (get_next_pattern env.systematic
        (select_loop env opts task n (initial_state env opts task)).pattern_generator).1 ≠ [] →
      (opts.max_pdb_size < pattern_product task.variable_domains
          (get_next_pattern env.systematic
            (select_loop env opts task n (initial_state env opts task)).pattern_generator).1 ∨
        INT_MAX < pattern_product task.variable_domains
          (get_next_pattern env.systematic
            (select_loop env opts task n (initial_state env opts task)).pattern_generator).1) →
      loop_iteration env opts task (select_loop env opts task n (initial_state env opts task)) =
        LoopStep.again
          (skip_pattern (select_loop env opts task n (initial_state env opts task))
            (get_next_pattern env.systematic
              (select_loop env opts task n
                (initial_state env opts task)).pattern_generator).2)) := by
  have hall : ∀ n : Nat,
      (∀ p ∈ pending_patterns env.systematic
          (select_loop env opts task n (initial_state env opts task)).pattern_generator,
        ∀ var ∈ p, var < task.variable_domains.length) ∧
      ∀ proj ∈ (select_loop env opts task n (initial_state env opts task)).projections,
        pattern_product task.variable_domains proj.pattern ≤ opts.max_pdb_size := by
    intro n
    apply select_loop_invariant env opts task
      (fun s => (∀ p ∈ pending_patterns env.systematic s.pattern_generator,
          ∀ var ∈ p, var < task.variable_domains.length) ∧
        ∀ proj ∈ s.projections,
          pattern_product task.variable_domains proj.pattern ≤ opts.max_pdb_size)
      (max_pdb_size_step env opts task hdom)
    constructor
    · intro p hp
      simp only [initial_state] at hp
      rw [pending_patterns_init] at hp
      obtain ⟨j, hj⟩ := stacked_patterns_mem env.systematic _ _ p hp
      exact hsys j p hj
    · intro proj hproj
      simp [initial_state] at hproj
  refine ⟨fun n => (hall n).2, ?_, ?_⟩
  · intro pattern hpattern
    simp only [select_systematic_patterns, final_state, List.mem_map] at hpattern
    obtain ⟨proj, hproj, rfl⟩ := hpattern
    exact (hall (iteration_bound env opts task)).2 proj hproj
  · intro n hexp hne hbig
    exact oversized_pattern_skipped env opts task hdom _ hexp hne
      ((hall n).1 _ (get_next_pattern_mem_pending env.systematic _ hne)) hbig

theorem example_pairs_systematic_valid :
    ∀ k, ∀ p ∈ example_env.systematic k, ∀ var ∈ p,
      var < example_task.variable_domains.length := by
  intro k p hp
  simp only [example_env, example_pairs_systematic] at hp
  split_ifs at hp
  · revert p
    decide
  · revert p
    decide
  · simp at hp

/-- C3, witness: with `max_pdb_size = 32768` on `example_task` the accepted
patterns `[2]` and `[1]` have exactly 32768 states each. -/
theorem accepted_patterns_within_max_pdb_size_witness :
    (∀ d ∈ example_task.variable_domains, 1 ≤ d) ∧
    (∀ k, ∀ p ∈ example_env.systematic k, ∀ var ∈ p,
      var < example_task.variable_domains.length) ∧
    ((∀ n : Nat, ∀ proj ∈ (select_loop example_env example_options_bounded example_task n
        (initial_state example_env example_options_bounded example_task)).projections,
      pattern_product example_task.variable_domains proj.pattern ≤
        example_options_bounded.max_pdb_size) ∧
    (∀ pattern ∈
        (select_systematic_patterns example_env example_options_bounded example_task).patterns,
      pattern_product example_task.variable_domains pattern ≤
        example_options_bounded.max_pdb_size) ∧
    (∀ n : Nat,
      example_env.is_expired (select_loop example_env example_options_bounded example_task n
        (initial_state example_env example_options_bounded example_task)).iterations = false →
      (get_next_pattern example_env.systematic
        (select_loop example_env example_options_bounded example_task n
          (initial_state example_env example_options_bounded
            example_task)).pattern_generator).1 ≠ [] →
      (example_options_bounded.max_pdb_size < pattern_product example_task.variable_domains
          (get_next_pattern example_env.systematic
            (select_loop example_env example_options_bounded example_task n
              (initial_state example_env example_options_bounded
                example_task)).pattern_generator).1 ∨
        INT_MAX < pattern_product example_task.variable_domains
          (get_next_pattern example_env.systematic
            (select_loop example_env example_options_bounded example_task n
              (initial_state example_env example_options_bounded
                example_task)).pattern_generator).1) →
      loop_iteration example_env example_options_bounded example_task
          (select_loop example_env example_options_bounded example_task n
            (initial_state example_env example_options_bounded example_task)) =
        LoopStep.again
          (skip_pattern (select_loop example_env example_options_bounded example_task n
              (initial_state example_env example_options_bounded example_task))
            (get_next_pattern example_env.systematic
              (select_loop example_env example_options_bounded example_task n
                (initial_state example_env example_options_bounded
                  example_task)).pattern_generator).2))) :=
  ⟨by decide, example_pairs_systematic_valid,
    accepted_patterns_within_max_pdb_size example_env example_options_bounded example_task
      (by decide) example_pairs_systematic_valid⟩

theorem is_positive_iff (score : Double) :
    score.is_positive = true ↔
      (score = Double.infinity ∨ ∃ q : ℚ, score = Double.finite q ∧ 0 < q) := by
  cases score with
  | finite q => simp [Double.is_positive]
  | infinity => simp [Double.is_positive]

/-- C5: in an iteration whose timer has not expired and whose pattern is
non-empty and has passed the PDB-size, pattern-count and collection-size
tests, the projection of the pattern is appended to the collection if and only
if `compute_mean_finite_value` of its goal distances is greater than 0, that
is `+infinity` or a positive number; otherwise the collection is unchanged. -/
theorem projection_accepted_iff_positive_score (env : Environment) (opts : Options)
    (task : Task) (s : SelectionState) (hexp : env.is_expired s.iterations = false)
    (hne : (get_next_pattern env.systematic s.pattern_generator).1 ≠ [])
    (hsent : get_pdb_size task.variable_domains
      (get_next_pattern env.systematic s.pattern_generator).1 ≠ -1)
    (hpdb : get_pdb_size task.variable_domains
      (get_next_pattern env.systematic s.pattern_generator).1 ≤ opts.max_pdb_size)
    (hcount : (s.projections.length : Int) ≠ opts.max_patterns)
    (hbudget : ¬ (opts.max_collection_size ≠ INT_MAX ∧
      get_pdb_size task.variable_domains
          (get_next_pattern env.systematic s.pattern_generator).1 >
        wrap_int64 (opts.max_collection_size - s.collection_size))) :
    ((loop_iteration env opts task s).state.projections =
        s.projections ++
          [Projection.mk (get_next_pattern env.systematic s.pattern_generator).1] ↔
      (compute_mean_finite_value
          (env.compute_goal_distances
            (get_next_pattern env.systematic s.pattern_generator).1 s.costs) =
          Double.infinity ∨
        ∃ q : ℚ,
          compute_mean_finite_value
            (env.compute_goal_distances
              (get_next_pattern env.systematic s.pattern_generator).1 s.costs) =
            Double.finite q ∧ 0 < q)) ∧
    ((loop_iteration env opts task s).state.projections ≠
        s.projections ++
          [Projection.mk (get_next_pattern env.systematic s.pattern_generator).1] →
      (loop_iteration env opts task s).state.projections = s.projections) := by
  have hcond : ¬ (get_pdb_size task.variable_domains
        (get_next_pattern env.systematic s.pattern_generator).1 = -1 ∨
      get_pdb_size task.variable_domains
        (get_next_pattern env.systematic s.pattern_generator).1 > opts.max_pdb_size) := by
    intro h
    rcases h with h | h
    · exact hsent h
    · omega
  rw [← is_positive_iff]
  by_cases hscore : (compute_mean_finite_value
      (env.compute_goal_distances
        (get_next_pattern env.systematic s.pattern_generator).1 s.costs)).is_positive = true
  · have hstate : (loop_iteration env opts task s).state.projections =
        s.projections ++
          [Projection.mk (get_next_pattern env.systematic s.pattern_generator).1] := by
      unfold loop_iteration
      simp only [hexp, Bool.false_eq_true, if_false, hne, hcond, hcount, hbudget, hscore,
        if_true, LoopStep.state, accept_pattern]
    exact ⟨⟨fun _ => hscore, fun _ => hstate⟩, fun h => absurd hstate h⟩
  · have hstate : (loop_iteration env opts task s).state.projections = s.projections := by
      unfold loop_iteration
      simp only [hexp, Bool.false_eq_true, if_false, hne, hcond, hcount, hbudget, hscore,
        LoopStep.state, skip_pattern]
    refine ⟨⟨fun h => ?_, fun h => absurd h hscore⟩, fun _ => hstate⟩
    rw [hstate] at h
    have hlen := congrArg List.length h
    simp at hlen

/-- C5, witness: the first iteration on `example_task` draws the pattern `[2]`,
whose score is 1/2, and appends its projection. -/
theorem projection_accepted_iff_positive_score_witness :
    (loop_iteration example_env example_options_unbounded example_task
      example_state).state.projections = [Projection.mk [2]] ∧
    example_env.is_expired example_state.iterations = false ∧
    (get_next_pattern example_env.systematic example_state.pattern_generator).1 ≠ [] ∧
    get_pdb_size example_task.variable_domains
      (get_next_pattern example_env.systematic example_state.pattern_generator).1 ≠ -1 ∧
    get_pdb_size example_task.variable_domains
      (get_next_pattern example_env.systematic example_state.pattern_generator).1 ≤
        example_options_unbounded.max_pdb_size ∧
    (example_state.projections.length : Int) ≠ example_options_unbounded.max_patterns ∧
    ¬ (example_options_unbounded.max_collection_size ≠ INT_MAX ∧
      get_pdb_size example_task.variable_domains
          (get_next_pattern example_env.systematic example_state.pattern_generator).1 >
        wrap_int64 (example_options_unbounded.max_collection_size -
          example_state.collection_size)) ∧
    (((loop_iteration example_env example_options_unbounded example_task
          example_state).state.projections =
        example_state.projections ++
          [Projection.mk
            (get_next_pattern example_env.systematic example_state.pattern_generator).1] ↔
      (compute_mean_finite_value
          (example_env.compute_goal_distances
            (get_next_pattern example_env.systematic example_state.pattern_generator).1
            example_state.costs) =
          Double.infinity ∨
        ∃ q : ℚ,
          compute_mean_finite_value
            (example_env.compute_goal_distances
              (get_next_pattern example_env.systematic example_state.pattern_generator).1
              example_state.costs) =
            Double.finite q ∧ 0 < q)) ∧
    ((loop_iteration example_env example_options_unbounded example_task
          example_state).state.projections ≠
        example_state.projections ++
          [Projection.mk
            (get_next_pattern example_env.systematic example_state.pattern_generator).1] →
      (loop_iteration example_env example_options_unbounded example_task
        example_state).state.projections = example_state.projections)) :=
  ⟨by decide!, by decide, by decide, by decide, by decide, by decide, by decide,
    projection_accepted_iff_positive_score example_env example_options_unbounded example_task
      example_state (by decide) (by decide) (by decide) (by decide) (by decide) (by decide)⟩

theorem loop_iteration_again (env : Environment) (opts : Options) (task : Task)
    (s s1 : SelectionState) (h : loop_iteration env opts task s = LoopStep.again s1) :
    (get_next_pattern env.systematic s.pattern_generator).1 ≠ [] ∧
      s1.pattern_generator = (get_next_pattern env.systematic s.pattern_generator).2 := by
  unfold loop_iteration at h
  simp only at h
  split_ifs at h with h1 h2 h3 h4 h5 h6
  all_goals
    injection h with h
    rw [← h]
    exact ⟨h2, rfl⟩

/-- The loop ends: within one iteration more than there are pending patterns
it has left through a `break`. -/
theorem loop_finished_of_pending_lt (env : Environment) (opts : Options) (task : Task) :
    ∀ (n : Nat) (s : SelectionState),
      (pending_patterns env.systematic s.pattern_generator).length < n →
      loop_finished env opts task n s = true := by
  intro n
  induction n with
  | zero => intro s h; omega
  | succ n ih =>
    intro s h
    unfold loop_finished
    cases hit : loop_iteration env opts task s with
    | done s1 => rfl
    | again s1 =>
      obtain ⟨hne, hgen⟩ := loop_iteration_again env opts task s s1 hit
      have hmem := get_next_pattern_mem_pending env.systematic _ hne
      have htail := (get_next_pattern_pending env.systematic s.pattern_generator).2
      apply ih
      rw [hgen, htail, List.length_tail]
      have hpos : 0 < (pending_patterns env.systematic s.pattern_generator).length :=
        List.length_pos_of_mem hmem
      omega

/-- Once the loop has left through a `break`, further iterations change
nothing: the state at the return does not depend on the bound. -/
theorem select_loop_stable (env : Environment) (opts : Options) (task : Task) :
    ∀ (n : Nat) (s : SelectionState), loop_finished env opts task n s = true →
      ∀ m : Nat, n ≤ m → select_loop env opts task m s = select_loop env opts task n s := by
  intro n
  induction n with
  | zero => intro s h; simp [loop_finished] at h
  | succ n ih =>
    intro s h m hm
    obtain ⟨m1, rfl⟩ : ∃ m1, m = m1 + 1 := ⟨m - 1, by omega⟩
    unfold loop_finished at h
    unfold select_loop
    cases hit : loop_iteration env opts task s with
    | done s1 => rfl
    | again s1 =>
      rw [hit] at h
      exact ih s1 h m1 (by omega)

/-- The function `select_systematic_patterns` returns: its loop has ended when
`final_state` is read, and `final_state` is the state of every longer run. -/
theorem select_systematic_patterns_terminates (env : Environment) (opts : Options)
    (task : Task) :
    loop_finished env opts task (iteration_bound env opts task)
        (initial_state env opts task) = true ∧
      ∀ m : Nat, iteration_bound env opts task ≤ m →
        select_loop env opts task m (initial_state env opts task) =
          final_state env opts task := by
  have h := loop_finished_of_pending_lt env opts task (iteration_bound env opts task)
    (initial_state env opts task) (by simp [iteration_bound])
  exact ⟨h, fun m hm => select_loop_stable env opts task _ _ h m hm⟩

/-! ## Cost saturation -/

theorem foldl_max_ge_init (l : List Int) : ∀ init : Int, init ≤ l.foldl max init := by
  induction l with
  | nil => intro init; exact le_refl _
  | cons x rest ih =>
    intro init
    exact le_trans (le_max_left init x) (ih (max init x))

theorem foldl_max_le_bound (l : List Int) (bound : Int) (hl : ∀ x ∈ l, x ≤ bound) :
    ∀ init : Int, init ≤ bound → l.foldl max init ≤ bound := by
  induction l with
  | nil => intro init h; exact h
  | cons x rest ih =>
    intro init h
    exact ih (fun y hy => hl y (List.mem_cons_of_mem _ hy)) (max init x)
      (max_le h (hl x (List.mem_cons_self _ _)))

theorem getD_nonneg {costs : List Int} (hcosts : ∀ c ∈ costs, 0 ≤ c) (i : Nat) :
    0 ≤ costs.getD i 0 := by
  by_cases hi : i < costs.length
  · rw [List.getD_eq_getElem _ _ hi]
    exact hcosts _ (List.getElem_mem _)
  · rw [List.getD_eq_default _ _ (by omega)]

theorem saturated_cost_nonneg (applicable : Nat → List AbstractBackwardOperator)
    (goal_distances : List Int) (op : Nat) :
    0 ≤ saturated_cost applicable goal_distances op :=
  foldl_max_ge_init _ 0

theorem saturated_cost_le_cost (applicable : Nat → List AbstractBackwardOperator)
    (costs goal_distances : List Int) (hcosts : ∀ c ∈ costs, 0 ≤ c)
    (hexact : distances_consistent applicable costs goal_distances) (op : Nat) :
    saturated_cost applicable goal_distances op ≤ costs.getD op 0 := by
  apply foldl_max_le_bound _ _ _ 0 (getD_nonneg hcosts op)
  intro x hx
  rw [List.mem_flatten] at hx
  obtain ⟨l, hl, hxl⟩ := hx
  rw [List.mem_map] at hl
  obtain ⟨s, hs, rfl⟩ := hl
  rw [List.mem_map] at hxl
  obtain ⟨o, ho, rfl⟩ := hxl
  rw [List.mem_filter] at ho
  obtain ⟨ho1, ho2⟩ := ho
  have hid : o.concrete_operator_id = op := by simpa using ho2
  unfold saturation_candidate
  split_ifs with hcond
  · have h := hexact s (List.mem_range.1 hs) o ho1 hcond.1 hcond.2.1 hcond.2.2.1
    rw [hid] at h
    omega
  · exact getD_nonneg hcosts op

theorem reduce_costs_length (costs : List Int)
    (applicable : Nat → List AbstractBackwardOperator) (goal_distances : List Int) :
    (reduce_costs costs
      (compute_saturated_costs applicable goal_distances costs.length)).length =
        costs.length := by
  simp [reduce_costs, compute_saturated_costs]

theorem reduce_costs_getD (costs : List Int)
    (applicable : Nat → List AbstractBackwardOperator) (goal_distances : List Int)
    (i : Nat) (hi : i < costs.length) :
    (reduce_costs costs
      (compute_saturated_costs applicable goal_distances costs.length)).getD i 0 =
        costs.getD i 0 - saturated_cost applicable goal_distances i := by
  have hlen := reduce_costs_length costs applicable goal_distances
  rw [List.getD_eq_getElem _ _ (by omega), List.getD_eq_getElem _ _ hi]
  simp [reduce_costs, compute_saturated_costs]

theorem reduce_costs_bounds (costs : List Int)
    (applicable : Nat → List AbstractBackwardOperator) (goal_distances : List Int)
    (hcosts : ∀ c ∈ costs, 0 ≤ c)
    (hexact : distances_consistent applicable costs goal_distances) :
    (reduce_costs costs
      (compute_saturated_costs applicable goal_distances costs.length)).length =
        costs.length ∧
      (∀ i : Nat, i < costs.length →
        0 ≤ (reduce_costs costs
          (compute_saturated_costs applicable goal_distances costs.length)).getD i 0 ∧
        (reduce_costs costs
          (compute_saturated_costs applicable goal_distances costs.length)).getD i 0 ≤
            costs.getD i 0) := by
  refine ⟨reduce_costs_length costs applicable goal_distances, ?_⟩
  intro i hi
  rw [reduce_costs_getD costs applicable goal_distances i hi]
  have h1 := saturated_cost_nonneg applicable goal_distances i
  have h2 := saturated_cost_le_cost applicable costs goal_distances hcosts hexact i
  omega

theorem forall_mem_of_getD_nonneg {costs : List Int}
    (h : ∀ i : Nat, i < costs.length → 0 ≤ costs.getD i 0) : ∀ c ∈ costs, 0 ≤ c := by
  intro c hc
  obtain ⟨i, hi, rfl⟩ := List.getElem_of_mem hc
  have := h i hi
  rwa [List.getD_eq_getElem _ _ hi] at this

theorem residual_costs_step (systematic : Int → PatternCollection) (is_expired : Nat → Bool)
    (compute_goal_distances : Pattern → List Int → List Int)
    (applicable : Pattern → Nat → List AbstractBackwardOperator) (opts : Options) (task : Task)
    (hexact : ∀ (pattern : Pattern) (costs : List Int), (∀ c ∈ costs, 0 ≤ c) →
      distances_consistent (applicable pattern) costs (compute_goal_distances pattern costs))
    (s : SelectionState) (hs : ∀ c ∈ s.costs, 0 ≤ c) :
    (loop_iteration
        (saturating_environment systematic is_expired compute_goal_distances applicable)
        opts task s).state.costs.length = s.costs.length ∧
      ∀ i : Nat, i < s.costs.length →
        0 ≤ (loop_iteration
          (saturating_environment systematic is_expired compute_goal_distances applicable)
          opts task s).state.costs.getD i 0 ∧
        (loop_iteration
          (saturating_environment systematic is_expired compute_goal_distances applicable)
          opts task s).state.costs.getD i 0 ≤ s.costs.getD i 0 := by
  rcases loop_iteration_cases
    (saturating_environment systematic is_expired compute_goal_distances applicable)
    opts task s with h | h | ⟨_, _, _, _, _, h⟩
  · rw [h]
    exact ⟨rfl, fun i _ => ⟨getD_nonneg hs i, le_refl _⟩⟩
  · rw [h]
    exact ⟨rfl, fun i _ => ⟨getD_nonneg hs i, le_refl _⟩⟩
  · rw [h]
    exact reduce_costs_bounds s.costs _ _ hs (hexact _ s.costs hs)

/-- C10: with the cost-saturation helpers as the specification describes them,
operator costs that are all at least 0 and goal-distance tables that are exact
for the costs they are computed from: every iteration of the selection loop,
and so every call of `reduce_costs` on an accepted pattern, leaves a cost
vector of the same length whose entries are at least 0 and at most their
values before; after any number of iterations the cost vector has the length
of the operator costs of the task, and every entry lies between 0 and the
initial cost of the operator. -/
theorem residual_costs_non_increasing (systematic : Int → PatternCollection)
    (is_expired : Nat → Bool) (compute_goal_distances : Pattern → List Int → List Int)
    (applicable : Pattern → Nat → List AbstractBackwardOperator) (opts : Options) (task : Task)
    (hcosts : ∀ c ∈ task.operator_costs, 0 ≤ c)
    (hexact : ∀ (pattern : Pattern) (costs : List Int), (∀ c ∈ costs, 0 ≤ c) →
      distances_consistent (applicable pattern) costs (compute_goal_distances pattern costs)) :
    (∀ s : SelectionState, (∀ c ∈ s.costs, 0 ≤ c) →
      (loop_iteration
          (saturating_environment systematic is_expired compute_goal_distances applicable)
          opts task s).state.costs.length = s.costs.length ∧
        ∀ i : Nat, i < s.costs.length →
          0 ≤ (loop_iteration
            (saturating_environment systematic is_expired compute_goal_distances applicable)
            opts task s).state.costs.getD i 0 ∧
          (loop_iteration
            (saturating_environment systematic is_expired compute_goal_distances applicable)
            opts task s).state.costs.getD i 0 ≤ s.costs.getD i 0) ∧
    (∀ n : Nat,
      (select_loop
          (saturating_environment systematic is_expired compute_goal_distances applicable)
          opts task n
          (initial_state
            (saturating_environment systematic is_expired compute_goal_distances applicable)
            opts task)).costs.length = task.operator_costs.length ∧
        ∀ i : Nat, i < task.operator_costs.length →
          0 ≤ (select_loop
            (saturating_environment systematic is_expired compute_goal_distances applicable)
            opts task n
            (initial_state
              (saturating_environment systematic is_expired compute_goal_distances applicable)
              opts task)).costs.getD i 0 ∧
          (select_loop
            (saturating_environment systematic is_expired compute_goal_distances applicable)
            opts task n
            (initial_state
              (saturating_environment systematic is_expired compute_goal_distances applicable)
              opts task)).costs.getD i 0 ≤ task.operator_costs.getD i 0) := by
  refine ⟨residual_costs_step systematic is_expired compute_goal_distances applicable opts task
    hexact, ?_⟩
  intro n
  apply select_loop_invariant
    (saturating_environment systematic is_expired compute_goal_distances applicable) opts task
    (fun s => s.costs.length = task.operator_costs.length ∧
      ∀ i : Nat, i < task.operator_costs.length →
        0 ≤ s.costs.getD i 0 ∧ s.costs.getD i 0 ≤ task.operator_costs.getD i 0)
  · intro s hs
    obtain ⟨hlen, hbound⟩ := hs
    have hnonneg : ∀ c ∈ s.costs, 0 ≤ c :=
      forall_mem_of_getD_nonneg (fun i hi => (hbound i (by omega)).1)
    obtain ⟨h1, h2⟩ := residual_costs_step systematic is_expired compute_goal_distances
      applicable opts task hexact s hnonneg
    refine ⟨by omega, fun i hi => ?_⟩
    have h3 := h2 i (by omega)
    have h4 := hbound i hi
    exact ⟨h3.1, le_trans h3.2 h4.2⟩
  · exact ⟨rfl, fun i _ => ⟨getD_nonneg hcosts i, le_refl _⟩⟩

theorem toggle_distances_consistent :
    ∀ (pattern : Pattern) (costs : List Int), (∀ c ∈ costs, 0 ≤ c) →
      distances_consistent (toggle_applicable pattern) costs
        (toggle_goal_distances pattern costs) := by
  intro pattern costs hcosts
  match pattern with
  | [] => intro s hs; simp [toggle_goal_distances] at hs
  | _ :: _ :: _ => intro s hs; simp [toggle_goal_distances] at hs
  | [v] =>
    have hv : 0 ≤ costs.getD v 0 := getD_nonneg hcosts v
    intro s hs o ho _ _ _
    match s with
    | 0 =>
      simp only [toggle_applicable, List.mem_singleton] at ho
      subst ho
      simp only [toggle_goal_distances]
      show (0 : Int) ≤ costs.getD v 0 + costs.getD v 0
      omega
    | 1 =>
      simp only [toggle_applicable, List.mem_singleton] at ho
      subst ho
      simp only [toggle_goal_distances]
      show costs.getD v 0 ≤ costs.getD v 0 + 0
      omega
    | s + 2 => simp [toggle_goal_distances] at hs

/-- C10, witness: in the end-to-end scenario of the specification the three
singleton patterns are accepted and the costs go from `[1, 1, 1]` to
`[0, 0, 0]`. -/
theorem residual_costs_non_increasing_witness :
    (∀ c ∈ toggle_task.operator_costs, 0 ≤ c) ∧
    (∀ (pattern : Pattern) (costs : List Int), (∀ c ∈ costs, 0 ≤ c) →
      distances_consistent (toggle_applicable pattern) costs
        (toggle_goal_distances pattern costs)) ∧
    (select_systematic_patterns toggle_env toggle_options toggle_task).patterns =
      [[2], [1], [0]] ∧
    (final_state toggle_env toggle_options toggle_task).costs = [0, 0, 0] ∧
    ((∀ s : SelectionState, (∀ c ∈ s.costs, 0 ≤ c) →
      (loop_iteration toggle_env toggle_options toggle_task s).state.costs.length =
          s.costs.length ∧
        ∀ i : Nat, i < s.costs.length →
          0 ≤ (loop_iteration toggle_env toggle_options toggle_task s).state.costs.getD i 0 ∧
          (loop_iteration toggle_env toggle_options toggle_task s).state.costs.getD i 0 ≤
            s.costs.getD i 0) ∧
    (∀ n : Nat,
      (select_loop toggle_env toggle_options toggle_task n
          (initial_state toggle_env toggle_options toggle_task)).costs.length =
          toggle_task.operator_costs.length ∧
        ∀ i : Nat, i < toggle_task.operator_costs.length →
          0 ≤ (select_loop toggle_env toggle_options toggle_task n
            (initial_state toggle_env toggle_options toggle_task)).costs.getD i 0 ∧
          (select_loop toggle_env toggle_options toggle_task n
            (initial_state toggle_env toggle_options toggle_task)).costs.getD i 0 ≤
              toggle_task.operator_costs.getD i 0)) :=
  ⟨by decide, toggle_distances_consistent, by decide!, by decide!,
    residual_costs_non_increasing toggle_systematic (fun _ => false) toggle_goal_distances
      toggle_applicable toggle_options toggle_task (by decide) toggle_distances_consistent⟩

/-! ## Termination of `get_next_pattern` -/

theorem get_next_pattern_pop (systematic : Int → PatternCollection) (mx cur : Int)
    (l : PatternCollection) (p : Pattern) :
    get_next_pattern systematic ⟨mx, cur, l ++ [p]⟩ = (p, ⟨mx, cur, l⟩) := by
  unfold get_next_pattern
  cases (mx - cur).toNat <;> simp [get_next_pattern_rec]

theorem get_next_pattern_exhausted (systematic : Int → PatternCollection) (mx cur : Int)
    (hlt : ¬ cur < mx) :
    get_next_pattern systematic ⟨mx, cur, []⟩ = ([], ⟨mx, cur, []⟩) := by
  unfold get_next_pattern
  cases (mx - cur).toNat <;> simp [get_next_pattern_rec, hlt]

theorem get_next_pattern_advance (systematic : Int → PatternCollection) (mx cur : Int)
    (hlt : cur < mx) :
    get_next_pattern systematic ⟨mx, cur, []⟩ =
      get_next_pattern systematic ⟨mx, cur + 1, get_patterns systematic (cur + 1)⟩ := by
  obtain ⟨k, hk⟩ : ∃ k, (mx - cur).toNat = k + 1 := ⟨(mx - cur).toNat - 1, by omega⟩
  have hk1 : (mx - (cur + 1)).toNat = k := by omega
  simp only [get_next_pattern, hk, hk1]
  simp only [get_next_pattern_rec, List.getLast?_nil, hlt, if_true]

theorem get_next_pattern_fuel_eq (systematic : Int → PatternCollection) :
    ∀ (fuel : Nat) (g : SequentialPatternGenerator),
      (g.max_pattern_size - g.current_pattern_size).toNat ≤ fuel →
      get_next_pattern_fuel systematic fuel g =
          some ((get_next_pattern systematic g).1, (get_next_pattern systematic g).2,
            ((get_next_pattern systematic g).2.current_pattern_size -
              g.current_pattern_size).toNat) ∧
        g.current_pattern_size ≤ (get_next_pattern systematic g).2.current_pattern_size ∧
        (get_next_pattern systematic g).2.current_pattern_size - g.current_pattern_size ≤
          max 0 (g.max_pattern_size - g.current_pattern_size) := by
  intro fuel
  induction fuel with
  | zero =>
    intro g hd
    obtain ⟨mx, cur, pats⟩ := g
    simp only at hd
    have hlt : ¬ cur < mx := by omega
    rcases List.eq_nil_or_concat pats with hp | ⟨l, p, hp⟩
    · subst hp
      rw [get_next_pattern_exhausted systematic mx cur hlt]
      simp [get_next_pattern_fuel, hlt]
    · subst hp
      rw [List.concat_eq_append, get_next_pattern_pop]
      simp [get_next_pattern_fuel]
  | succ d ih =>
    intro g hd
    obtain ⟨mx, cur, pats⟩ := g
    simp only at hd
    rcases List.eq_nil_or_concat pats with hp | ⟨l, p, hp⟩
    · subst hp
      by_cases hlt : cur < mx
      · obtain ⟨h1, h2, h3⟩ :=
          ih ⟨mx, cur + 1, get_patterns systematic (cur + 1)⟩ (by simp only; omega)
        simp only at h1 h2 h3
        rw [get_next_pattern_advance systematic mx cur hlt]
        have hmax : max 0 (mx - (cur + 1)) = mx - (cur + 1) := max_eq_right (by omega)
        rw [hmax] at h3
        refine ⟨?_, by simp only; omega, ?_⟩
        · simp only [get_next_pattern_fuel, List.getLast?_nil, hlt, if_true, h1,
            Option.some.injEq, Prod.mk.injEq, true_and]
          omega
        · simp only
          have hmax1 : max 0 (mx - cur) = mx - cur := max_eq_right (by omega)
          rw [hmax1]
          omega
      · rw [get_next_pattern_exhausted systematic mx cur hlt]
        simp [get_next_pattern_fuel, hlt]
    · subst hp
      rw [List.concat_eq_append, get_next_pattern_pop]
      simp [get_next_pattern_fuel]

/-- C11: for every generator state and every enumerator, `get_next_pattern`
terminates: run with room for `max(0, max_pattern_size - current_pattern_size)`
recursive calls or more, it returns its pattern and generator after a number
`calls` of recursive calls that is at most
`max(0, max_pattern_size - current_pattern_size)`; every recursive call raises
`current_pattern_size` by one, and calls are made only while
`current_pattern_size < max_pattern_size`. -/
theorem get_next_pattern_recursion_bounded (systematic : Int → PatternCollection)
    (g : SequentialPatternGenerator) :
    ∃ calls : Nat,
      (∀ fuel : Nat, (g.max_pattern_size - g.current_pattern_size).toNat ≤ fuel →
        get_next_pattern_fuel systematic fuel g =
          some ((get_next_pattern systematic g).1, (get_next_pattern systematic g).2, calls)) ∧
      (calls : Int) ≤ max 0 (g.max_pattern_size - g.current_pattern_size) ∧
      (get_next_pattern systematic g).2.current_pattern_size =
        g.current_pattern_size + (calls : Int) ∧
      (0 < calls → g.current_pattern_size < g.max_pattern_size ∧
        (get_next_pattern systematic g).2.current_pattern_size ≤ g.max_pattern_size) := by
  obtain ⟨_, h2, h3⟩ := get_next_pattern_fuel_eq systematic _ g (le_refl _)
  refine ⟨((get_next_pattern systematic g).2.current_pattern_size -
    g.current_pattern_size).toNat,
    fun fuel hfuel => (get_next_pattern_fuel_eq systematic fuel g hfuel).1, ?_, ?_, ?_⟩
  · rw [Int.toNat_of_nonneg (by omega)]
    exact h3
  · rw [Int.toNat_of_nonneg (by omega)]
    omega
  · intro hpos
    rcases le_total (g.max_pattern_size - g.current_pattern_size) 0 with hle | hle
    · rw [max_eq_left hle] at h3
      omega
    · rw [max_eq_right hle] at h3
      omega

/-- C11, worked example: an enumerator without patterns and a generator at
size 1 with `max_pattern_size = 4`: the call makes three recursive calls and
returns the empty pattern at size 4; room for two calls is not enough. -/
theorem get_next_pattern_recursion_bounded_witness :
    get_next_pattern_fuel empty_systematic 3 example_generator =
      some ([], { max_pattern_size := 4, current_pattern_size := 4, current_patterns := [] },
        3) ∧
    get_next_pattern_fuel empty_systematic 2 example_generator = none ∧
    ∃ calls : Nat,
      (∀ fuel : Nat,
        (example_generator.max_pattern_size - example_generator.current_pattern_size).toNat ≤
          fuel →
        get_next_pattern_fuel empty_systematic fuel example_generator =
          some ((get_next_pattern empty_systematic example_generator).1,
            (get_next_pattern empty_systematic example_generator).2, calls)) ∧
      (calls : Int) ≤
        max 0 (example_generator.max_pattern_size - example_generator.current_pattern_size) ∧
      (get_next_pattern empty_systematic example_generator).2.current_pattern_size =
        example_generator.current_pattern_size + (calls : Int) ∧
      (0 < calls →
        example_generator.current_pattern_size < example_generator.max_pattern_size ∧
        (get_next_pattern empty_systematic example_generator).2.current_pattern_size ≤
          example_generator.max_pattern_size) :=
  ⟨by decide, by decide, get_next_pattern_recursion_bounded empty_systematic example_generator⟩

end pdbs
